import Mathlib

/-!
# Verification of the forest message-selection engine and payment-channel manager

A shallow embedding of the two cores of the repository:

* Core B — the payment-channel manager, embedded from
  `src/paych/src/paychannel.rs` (`check_voucher_valid`, `lane_state`,
  `total_redeemed_with_voucher`, `add_voucher`, `process_task`, `create_paych`,
  `add_funds`).  The durable store (`PaychStore`) and the chain/actor-state
  read interface are not under `src/`; they are modelled from the spec
  (sections 4.6 and 6) and are marked as such.

* Core A — the message-pool selection engine, embedded from
  `src/blockchain/message_pool/src/msgpool/selection.rs` (`select_messages`,
  `select_messages_greedy`, `select_messages_optimal`, `get_pending_messages`,
  `select_priority_messages`, `merge_and_trim`, `run_head_change`).  The chain
  constructor `create_message_chains`, the `MsgChain` node operations
  (`compare`, `trim`), and the helpers `add_to_selected_msgs` /
  `remove_from_selected_msgs` live in sibling modules that are not under
  `src/`; they are modelled from the spec (sections 3, 4.1, 4.2, 4.4) and are
  marked as such.

Rust `u64` becomes `Nat`, `i64` and `BigInt` become `Int`, `f64` gas
performance values become `Rat`, fallible operations return `Except Error`,
and the interior-mutable store is threaded as explicit state.
-/

set_option maxHeartbeats 1000000

namespace Forest

/-- Addresses, message CIDs and raw byte strings, abstracted. -/
abbrev Addr := Nat

abbrev Cid := Nat

abbrev Bytes := List Nat

/-- Error kinds.  The Rust code mostly uses `Error::Other(string)` with
distinct message strings; each distinct failure site gets its own
constructor here so that statements can tell failures apart.  -/
inductive Error where
  /-- `Error::ChannelNotTracked` -/
  | channelNotTracked
  /-- `Error::HeaviestTipset` -/
  | heaviestTipset
  /-- "voucher channel address doesn't match channel address" -/
  | channelMismatch
  /-- "no sig" -/
  | noSig
  /-- signature verification failure -/
  | sigInvalid
  /-- "No lane state for given nonce" -/
  | noLaneState
  /-- "nonce too low" -/
  | nonceTooLow
  /-- "Voucher amount is lower than amount for voucher with lower nonce" -/
  | amountRegression
  /-- "merges not supported yet" / "don't currently support paych lane merges" -/
  | mergesUnsupported
  /-- "Not enough funds in channel to cover voucher" -/
  | insufficientFunds
  /-- "supplied token amount too low" -/
  | deltaTooLow
  /-- failure loading actor state or the paych state -/
  | loadState
  /-- message-pool chain read failure -/
  | chainRead
  /-- the Rust code reaches an unimplemented stub and aborts -/
  | unimplemented
  /-- any other error -/
  | otherErr
deriving DecidableEq

/-! ## Core B: data model -/

/-- A lane merge entry of a signed voucher. -/
structure Merge where
  lane : Nat
  nonce : Nat
deriving DecidableEq

/-- An opaque signature. -/
structure Signature where
  bytes : Bytes
deriving DecidableEq

/-- `actor::paych::SignedVoucher`.  All fields that take part in the Rust
structural equality are kept, so that "byte-identical" coincides with `=`. -/
structure SignedVoucher where
  channelAddr : Addr
  timeLockMin : Int
  timeLockMax : Int
  secretPreimage : Bytes
  extra : Option Bytes
  lane : Nat
  nonce : Nat
  amount : Int
  minSettleHeight : Int
  merges : List Merge
  signature : Option Signature
deriving DecidableEq

/-- `actor::paych::LaneState`: per-lane `(nonce, redeemed)`. -/
structure LaneState where
  redeemed : Int
  nonce : Nat
deriving DecidableEq

/-- A stored voucher together with its proof bytes and submission flag. -/
structure VoucherInfo where
  voucher : SignedVoucher
  proof : Bytes
  submitted : Bool
deriving DecidableEq

/-- Channel direction. -/
inductive Direction where
  | inbound
  | outbound
deriving DecidableEq

/-- Off-chain per-channel metadata (`ChannelInfo`). -/
structure ChannelInfo where
  id : Nat
  channel : Option Addr
  control : Addr
  target : Addr
  direction : Direction
  amount : Int
  pendingAmount : Int
  nextLane : Nat
  createMsg : Option Cid
  addFundsMsg : Option Cid
  settling : Bool
  vouchers : List VoucherInfo
deriving DecidableEq

/-- Modelled from the spec: the durable channel store (section 4.6), a mapping
`channel_id -> ChannelInfo`; `PaychStore` itself is not under `src/`. -/
structure PaychStore where
  channels : List ChannelInfo
deriving DecidableEq

/-- Modelled from the spec: `by_address(addr)` returns the channel info whose
on-chain channel address is `addr`, failing with `ChannelNotTracked`. -/
def PaychStore.byAddress (st : PaychStore) (ch : Addr) : Except Error ChannelInfo :=
  match st.channels.find? (fun ci => ci.channel == some ch) with
  | some ci => .ok ci
  | none => .error .channelNotTracked

/-- Modelled from the spec: `put_channel_info` persists a channel record,
replacing the record with the same id. -/
def PaychStore.putChannelInfo (st : PaychStore) (ci : ChannelInfo) : PaychStore :=
  ⟨st.channels.map (fun c => if c.id == ci.id then ci else c)⟩

/-- Modelled from the spec: `vouchers_for_paych(addr)` returns the stored
vouchers of the channel with address `addr`. -/
def PaychStore.vouchersForPaych (st : PaychStore) (ch : Addr) : Except Error (List VoucherInfo) :=
  (st.byAddress ch).map ChannelInfo.vouchers

/-- Modelled from the spec: the secondary index
`(from, to, direction = outbound, active) -> id`, failing with
`ChannelNotTracked` when no such channel exists. -/
def PaychStore.outboundActiveByFromTo (st : PaychStore) (src dst : Addr) :
    Except Error ChannelInfo :=
  match st.channels.find?
      (fun ci => ci.direction == .outbound && !ci.settling && ci.control == src && ci.target == dst) with
  | some ci => .ok ci
  | none => .error .channelNotTracked

/-- Modelled from the spec: `create_channel(from, to, create_msg_cid, amount)`
adds a fresh outbound channel record whose `create_msg` is pending and whose
amount is still pending (`wait_paych_create_msg` later promotes
`pending_amount` to `amount`). -/
def PaychStore.createChannel (st : PaychStore) (src dst : Addr) (mcid : Cid) (amt : Int) :
    ChannelInfo × PaychStore :=
  let ci : ChannelInfo :=
    { id := st.channels.length, channel := none, control := src, target := dst,
      direction := .outbound, amount := 0, pendingAmount := amt, nextLane := 0,
      createMsg := some mcid, addFundsMsg := none, settling := false, vouchers := [] }
  (ci, ⟨st.channels ++ [ci]⟩)

/-- The on-chain payment-channel actor state (`actor::paych::State`): the
payer (`from`), payee (`to`), the amount queued for settlement (`to_send`)
and the lane-state AMT, modelled as an association list keyed by lane. -/
structure PaychState where
  src : Addr
  dst : Addr
  toSend : Int
  laneStates : List (Nat × LaneState)
deriving DecidableEq

/-- Modelled from the spec: the chain/actor-state read interface (section 6)
that `check_voucher_valid` consumes.  `loadPaychState` folds together
`load_paych_state` (actor balance and paych state); `accountAddr` folds
together `get_heaviest_tipset` and the account-actor state load resolving the
payer address; `verifySig` checks a signature over the voucher's canonical
signing bytes against an address; `pushMsg` is the message-pool push returning
the signed message's CID. -/
structure ChainEnv where
  loadPaychState : Addr → Except Error (Int × PaychState)
  accountAddr : Addr → Except Error Addr
  verifySig : Signature → SignedVoucher → Addr → Bool
  pushMsg : Addr → Addr → Int → Except Error Cid

/-- Association-list lookup for lane-state maps (Rust `HashMap::get`). -/
def lsGet (m : List (Nat × LaneState)) (k : Nat) : Option LaneState :=
  (m.find? (fun p => p.1 == k)).map Prod.snd

/-- Association-list insert-or-replace for lane-state maps
(Rust `HashMap::insert`). -/
def lsInsert (m : List (Nat × LaneState)) (k : Nat) (v : LaneState) : List (Nat × LaneState) :=
  if m.any (fun p => p.1 == k) then
    m.map (fun p => if p.1 == k then (k, v) else p)
  else
    m ++ [(k, v)]

/-- The write-back part of the `lane_state` overlay
(src/paych/src/paychannel.rs lines 441-453): overwrite the voucher's lane
with `(voucher.nonce, voucher.amount)` unless the voucher's nonce is below
the stored nonce. -/
def overlayWrite (m : List (Nat × LaneState)) (v : VoucherInfo) :
    List (Nat × LaneState) :=
  match lsGet m v.voucher.lane with
  | some ls =>
      if v.voucher.nonce < ls.nonce then m
      else lsInsert m v.voucher.lane ⟨v.voucher.amount, v.voucher.nonce⟩
  | none => m

/-- One voucher's overlay: ensure the lane entry exists, then overwrite it
unless the voucher's nonce is below the stored nonce. -/
def laneOverlayStep (m : List (Nat × LaneState)) (v : VoucherInfo) :
    List (Nat × LaneState) :=
  overlayWrite (if (lsGet m v.voucher.lane).isSome then m
                else lsInsert m v.voucher.lane ⟨0, 0⟩) v

/-- The full overlay of `lane_state` applied over the AMT contents. -/
def laneStateMap (amt : List (Nat × LaneState)) (vouchers : List VoucherInfo) :
    List (Nat × LaneState) :=
  vouchers.foldl laneOverlayStep amt

/-- Embeds `ChannelAccessor::lane_state`
(src/paych/src/paychannel.rs lines 406-457): load the on-chain lane-state AMT
into a map, then apply the locally stored vouchers on top of it. -/
def laneState (store : PaychStore) (state : PaychState) (ch : Addr) :
    Except Error (List (Nat × LaneState)) := do
  let vouchers ← store.vouchersForPaych ch
  .ok (laneStateMap state.laneStates vouchers)

/-- The sum the source computes over the lane-state map: note that
src/paych/src/paychannel.rs line 470 adds `ls.nonce` (not `ls.redeemed`)
for every lane. -/
def laneNonceSum (m : List (Nat × LaneState)) : Int :=
  m.foldl (fun t p => t + (p.2.nonce : Int)) 0

/-- The pure value computed by `total_redeemed_with_voucher` once the merge
check has passed (src/paych/src/paychannel.rs lines 468-487). -/
def totalRedeemedPure (m : List (Nat × LaneState)) (sv : SignedVoucher) : Int :=
  let total := laneNonceSum m
  match lsGet m sv.lane with
  | some lane => if sv.nonce > lane.nonce then total + (sv.amount - lane.redeemed) else total
  | none => total + sv.amount

/-- Embeds `ChannelAccessor::total_redeemed_with_voucher`
(src/paych/src/paychannel.rs lines 459-488): reject merges, sum over all
lanes (the source sums `ls.nonce`), then add the voucher's delta when it
supersedes its lane, or its full amount when the lane is absent. -/
def totalRedeemedWithVoucher (m : List (Nat × LaneState)) (sv : SignedVoucher) :
    Except Error Int :=
  if !sv.merges.isEmpty then .error .mergesUnsupported
  else .ok (totalRedeemedPure m sv)

/-- Modelled from the spec: `total_redeemed_with_voucher` as the spec states
it (section 4.7) — the sum of `redeemed` across all lanes, with the voucher's
lane contribution replaced by `voucher.amount` iff `voucher.nonce > lane.nonce`
and with `voucher.amount` added when the lane is absent; merges rejected.
Stated only for comparison with the source embedding above. -/
def specTotalRedeemedWithVoucher (m : List (Nat × LaneState)) (sv : SignedVoucher) :
    Except Error Int :=
  if !sv.merges.isEmpty then .error .mergesUnsupported
  else
    let total := m.foldl (fun t p => t + p.2.redeemed) 0
    match lsGet m sv.lane with
    | some lane =>
        if sv.nonce > lane.nonce then .ok (total - lane.redeemed + sv.amount) else .ok total
    | none => .ok (total + sv.amount)

/-- Embeds `ChannelAccessor::check_voucher_valid`
(src/paych/src/paychannel.rs lines 133-209).  The checks run in source
order: channel-address match, paych-state load, payer account resolution,
signature presence and validity, lane lookup, nonce, amount, the
total-redeemed funds check (which itself rejects merges first), the explicit
merge check, and finally success with the lane-state map. -/
def checkVoucherValid (env : ChainEnv) (store : PaychStore) (ch : Addr) (sv : SignedVoucher) :
    Except Error (List (Nat × LaneState)) := do
  if sv.channelAddr ≠ ch then throw .channelMismatch
  let (balance, pchState) ← env.loadPaychState ch
  let payer ← env.accountAddr pchState.src
  let sig ← match sv.signature with
    | some s => pure s
    | none => throw .noSig
  if !env.verifySig sig sv payer then throw .sigInvalid
  let laneStates ← laneState store pchState ch
  let ls ← match lsGet laneStates sv.lane with
    | some ls => pure ls
    | none => throw .noLaneState
  if ls.nonce ≥ sv.nonce then throw .nonceTooLow
  if ls.redeemed ≥ sv.amount then throw .amountRegression
  let mergeLen := sv.merges.length
  let totalRedeemed ← totalRedeemedWithVoucher laneStates sv
  let newTotal := totalRedeemed + pchState.toSend
  if balance < newTotal then throw .insufficientFunds
  if mergeLen ≠ 0 then throw .mergesUnsupported
  .ok laneStates

/-- The duplicate-voucher scan of `add_voucher`
(src/paych/src/paychannel.rs lines 292-307): find the first stored voucher
equal to `sv`; answer `none` when there is no duplicate, `some (vs, true)`
when a non-empty differing proof replaces the stored proof (the source
returns 1 and persists), and `some (vs, false)` when the re-add is a no-op
(the source returns 0 without persisting). -/
def updateDupProof : List VoucherInfo → SignedVoucher → Bytes →
    Option (List VoucherInfo × Bool)
  | [], _, _ => none
  | vi :: rest, sv, proof =>
    if vi.voucher = sv then
      if proof ≠ [] ∧ vi.proof ≠ proof then some ({ vi with proof := proof } :: rest, true)
      else some (vi :: rest, false)
    else
      (updateDupProof rest sv proof).map (fun p => (vi :: p.1, p.2))

/-- Embeds `ChannelAccessor::add_voucher`
(src/paych/src/paychannel.rs lines 281-338), returning the delta and the
updated store.  A duplicate voucher short-circuits before validation; an
original voucher is validated, its delta against the lane's prior redeemed
amount is checked against `min_delta`, it is appended, and `next_lane` is
incremented by one when `next_lane <= voucher.lane`. -/
def addVoucher (env : ChainEnv) (store : PaychStore) (ch : Addr) (sv : SignedVoucher)
    (proof : Bytes) (minDelta : Int) : Except Error (Int × PaychStore) := do
  let ci ← store.byAddress ch
  match updateDupProof ci.vouchers sv proof with
  | some (vs, true) =>
      .ok (1, store.putChannelInfo { ci with vouchers := vs })
  | some (_, false) =>
      .ok (0, store)
  | none => do
      let laneStates ← checkVoucherValid env store ch sv
      let redeemed := match lsGet laneStates sv.lane with
        | some redeem => redeem.redeemed
        | none => 0
      let delta := sv.amount - redeemed
      if minDelta > delta then throw .deltaTooLow
      let ci := { ci with vouchers := ci.vouchers ++ [⟨sv, proof, false⟩] }
      let ci := if ci.nextLane ≤ sv.lane then { ci with nextLane := ci.nextLane + 1 } else ci
      .ok (delta, store.putChannelInfo ci)

/-- The result of a funds request. -/
structure PaychFundsRes where
  channel : Option Addr
  mcid : Option Cid
  err : Option Error
deriving DecidableEq

/-- Embeds `ChannelAccessor::create_paych`
(src/paych/src/paychannel.rs lines 695-731): push the channel-creation
message, create the channel record in the store, and return the message CID.
The spawned chain-watcher task is asynchronous and outside this model. -/
def createPaych (env : ChainEnv) (store : PaychStore) (src dst : Addr) (amt : Int) :
    Except Error (Cid × PaychStore) := do
  let mcid ← env.pushMsg src dst amt
  let (_, store) := store.createChannel src dst mcid amt
  .ok (mcid, store)

/-- Embeds `ChannelAccessor::add_funds`
(src/paych/src/paychannel.rs lines 771-815): push an add-funds message to the
channel's on-chain address, record the pending amount and pending message CID.
The spawned watcher task is outside this model. -/
def addFunds (env : ChainEnv) (store : PaychStore) (ci : ChannelInfo) (amt : Int) :
    Except Error (Cid × PaychStore) := do
  let dst ← match ci.channel with
    | some a => pure a
    | none => throw .otherErr
  let mcid ← env.pushMsg ci.control dst amt
  let ci := { ci with pendingAmount := amt, addFundsMsg := some mcid }
  .ok (mcid, store.putChannelInfo ci)

/-- Embeds `ChannelAccessor::process_task`
(src/paych/src/paychannel.rs lines 635-692).  `none` means the queue pauses;
`some res` completes the merged request with `res`.  Note the source order:
when the outbound-active lookup fails with `ChannelNotTracked` the error is
returned as the result, and `create_paych` is invoked only for other lookup
errors. -/
def processTask (env : ChainEnv) (store : PaychStore) (src dst : Addr) (amt : Int) :
    Option PaychFundsRes × PaychStore :=
  match store.outboundActiveByFromTo src dst with
  | .error err =>
      if err = Error.channelNotTracked then
        (some ⟨none, none, some err⟩, store)
      else
        match createPaych env store src dst amt with
        | .error e => (some ⟨none, none, some e⟩, store)
        | .ok (mcid, store) => (some ⟨none, some mcid, none⟩, store)
  | .ok ci =>
      if ci.createMsg.isSome then (none, store)
      else if ci.addFundsMsg ≠ none then (none, store)
      else
        match addFunds env store ci amt with
        | .error _ => (none, store)
        | .ok (mcid, store) => (some ⟨ci.channel, some mcid, none⟩, store)

/-! ## Core A: data model -/

/-- A signed message as the selection engine sees it: identity
`(sender, sequence)` plus the gas fields and value
(spec section 3; `to`, `method`, `params` and the signature play no role in
selection and are elided). -/
structure SMsg where
  sender : Addr
  sequence : Nat
  gasLimit : Int
  gasFeeCap : Int
  gasPremium : Int
  value : Int
deriving DecidableEq

/-- Modelled from the spec: the protocol constant `BLOCK_GAS_LIMIT` from the
external `types` crate (section 6); the Filecoin block gas limit. -/
def BLOCK_GAS_LIMIT : Int := 10000000000

/-- `MAX_BLOCK_MSGS` (src/blockchain/message_pool/src/msgpool/selection.rs
line 26): the cap on messages per block. -/
def MAX_BLOCK_MSGS : Nat := 16000

/-- `MAX_BLOCKS` (selection.rs line 27). -/
def MAX_BLOCKS : Nat := 15

/-- The `min_gas` literal 1298450 of selection.rs lines 72 and 231; the spec
(section 6) gives the same value for `gas_guess::MIN_GAS`, which is not under
`src/`. -/
def MIN_GAS : Int := 1298450

/-- `effective_premium(base_fee) = min(gas_premium, gas_fee_cap - base_fee)`
(spec section 3). -/
def effectivePremium (baseFee : Int) (m : SMsg) : Int :=
  min m.gasPremium (m.gasFeeCap - baseFee)

/-- `gas_reward(base_fee) = effective_premium * gas_limit` (spec section 3). -/
def msgReward (baseFee : Int) (m : SMsg) : Int :=
  effectivePremium baseFee m * m.gasLimit

/-- Total gas limit of a message list. -/
def gasSum (msgs : List SMsg) : Int :=
  (msgs.map SMsg.gasLimit).sum

/-- Total gas reward of a message list. -/
def rewardSum (baseFee : Int) (msgs : List SMsg) : Int :=
  (msgs.map (msgReward baseFee)).sum

/-- Gas performance as a rational: reward per unit of gas (an `f64` in the
source). -/
def perfOf (reward limit : Int) : Rat :=
  (reward : Rat) / (limit : Rat)

/-- Modelled from the spec: a message-chain node (section 3) — one sender's
message run with aggregate gas limit, aggregate reward, gas performance,
effective performance and validity flag.  The `MsgChain` type lives in
`msg_chain.rs`, which is not under `src/`. -/
structure MsgChain where
  msgs : List SMsg
  gasLimit : Int
  gasReward : Int
  gasPerf : Rat
  effPerf : Rat
  valid : Bool
  sender : Addr
deriving DecidableEq

/-- Modelled from the spec: the chain comparator (section 4.4) — `gas_perf`
descending, then `gas_reward` descending, then sender address ascending.
`chainCompare a b = .gt` means `a` sorts strictly before `b` in the
descending order used by `merge_and_trim`. -/
def chainCompare (a b : MsgChain) : Ordering :=
  if a.gasPerf > b.gasPerf then .gt
  else if a.gasPerf < b.gasPerf then .lt
  else if a.gasReward > b.gasReward then .gt
  else if a.gasReward < b.gasReward then .lt
  else if a.sender < b.sender then .gt
  else if b.sender < a.sender then .lt
  else .eq

/-- Stable insertion (descending under `chainCompare`) used to model the
stable `sort_by(|a, b| b.compare(&a))` of the source. -/
def insertChainDesc (c : MsgChain) : List MsgChain → List MsgChain
  | [] => [c]
  | d :: rest => if chainCompare c d = .lt then d :: insertChainDesc c rest else c :: d :: rest

/-- Stable descending sort by the chain comparator. -/
def sortChainsDesc (l : List MsgChain) : List MsgChain :=
  l.foldr insertChainDesc []

/-- The trimming loop of `MsgChain::trim`, modelled from the spec (section
4.4 step 4a): drop messages from the suffix while the chain does not fit and
its gas performance is nonnegative, maintaining the aggregates. -/
def trimAux : Nat → List SMsg → Int → Int → Int → Int → List SMsg × Int × Int
  | 0, msgs, gl, gr, _, _ => (msgs, gl, gr)
  | fuel + 1, msgs, gl, gr, gasLimit, baseFee =>
    if gl > gasLimit ∧ ¬ perfOf gr gl < 0 then
      match msgs.getLast? with
      | none => (msgs, gl, gr)
      | some m =>
          trimAux fuel msgs.dropLast (gl - m.gasLimit) (gr - msgReward baseFee m) gasLimit baseFee
    else (msgs, gl, gr)

/-- Write the trimmed components back into the chain, invalidating it when
it ended up empty or with negative performance. -/
def trimFinish (c : MsgChain) (t : List SMsg × Int × Int) : MsgChain :=
  if t.1.isEmpty ∨ perfOf t.2.2 t.2.1 < 0 then
    { c with msgs := t.1, gasLimit := t.2.1, gasReward := t.2.2,
             gasPerf := perfOf t.2.2 t.2.1, valid := false }
  else
    { c with msgs := t.1, gasLimit := t.2.1, gasReward := t.2.2,
             gasPerf := perfOf t.2.2 t.2.1 }

/-- Modelled from the spec: `MsgChain::trim` (section 4.4 step 4a) — drop
messages from the chain's suffix until it fits in the remaining gas or its
head gas performance turns negative; if the reduction leaves the chain empty
or with negative performance, mark it invalid. -/
def MsgChain.trim (c : MsgChain) (gasLimit baseFee : Int) : MsgChain :=
  trimFinish c (trimAux c.msgs.length c.msgs c.gasLimit c.gasReward gasLimit baseFee)

/-- The partial bubble-down of `merge_and_trim`
(selection.rs lines 286-291): swap the trimmed chain rightward while it is
not strictly greater than its right neighbor. -/
def pushDown (c : MsgChain) : List MsgChain → List MsgChain
  | [] => [c]
  | d :: rest => if chainCompare c d = .gt then c :: d :: rest else d :: pushDown c rest

/-- The first merge loop of `merge_and_trim` (selection.rs lines 267-279):
walk the sorted chains, stopping at the first negative-performance chain
(then the tail index is out of range and the suffix is empty) or at the first
chain that does not fit (the suffix then starts at that chain).  Returns the
accumulated result, the remaining gas, and the suffix of chains from the tail
index on.  Chains at positions before the tail index are never revisited by
the source's tail loop, so the suffix captures the whole mutable tail. -/
def mergeLoop : List MsgChain → List SMsg → Int → List SMsg × Int × List MsgChain
  | [], res, gl => (res, gl, [])
  | c :: rest, res, gl =>
    if c.gasPerf < 0 then (res, gl, [])
    else if c.gasLimit ≤ gl then mergeLoop rest (res ++ c.msgs) (gl - c.gasLimit)
    else (res, gl, c :: rest)

/-- The inner selection pass of the tail loop (selection.rs lines 295-313),
on the suffix of chains from the tail index: skip invalid chains, stop the
whole tail loop at a negative-performance chain (`none`), append fitting
chains (the source moves their messages out), and hand back the suffix
starting at the first chain that does not fit (`some suffix`,
`last += i; continue 'tail_loop`). -/
def scanChains : List MsgChain → List SMsg → Int → List SMsg × Int × Option (List MsgChain)
  | [], res, gl => (res, gl, none)
  | c :: rest, res, gl =>
    if !c.valid then scanChains rest res gl
    else if c.gasPerf < 0 then (res, gl, none)
    else if c.gasLimit ≤ gl then scanChains rest (res ++ c.msgs) (gl - c.gasLimit)
    else (res, gl, some (c :: rest))

/-- The tail loop of `merge_and_trim` (selection.rs lines 280-315), fuelled:
while gas remains above `min_gas` and the tail index is in range, trim the
chain at the tail index, bubble it down if still valid, then run the
selection pass.  The source's loop terminates because every iteration either
drops a message, invalidates a chain or consumes a chain; the fuel passed by
`mergeAndTrim` covers that measure.  `tailRest` is the suffix after trimming
and the conditional bubble-down. -/
def tailRest (c : MsgChain) (tl : List MsgChain) : List MsgChain :=
  if c.valid then pushDown c tl else c :: tl

def tailLoop (baseFee minGas : Int) : Nat → List MsgChain → List SMsg → Int → List SMsg × Int
  | 0, _, res, gl => (res, gl)
  | _ + 1, [], res, gl => (res, gl)
  | fuel + 1, c :: tl, res, gl =>
    if gl ≥ minGas then
      match scanChains (tailRest (c.trim gl baseFee) tl) res gl with
      | (res2, gl2, none) => (res2, gl2)
      | (res2, gl2, some rest2) => tailLoop baseFee minGas fuel rest2 res2 gl2
    else (res, gl)

/-- Total number of messages across a chain list. -/
def chainsMsgCount (l : List MsgChain) : Nat :=
  (l.map (fun c => c.msgs.length)).sum

/-- The tail phase applied to a merge-loop outcome, with fuel covering the
tail loop's termination measure. -/
def tailPhase (baseFee minGas : Int) (m : List SMsg × Int × List MsgChain) :
    List SMsg × Int :=
  tailLoop baseFee minGas (chainsMsgCount m.2.2 + m.2.2.length + 1) m.2.2 m.1 m.2.1

/-- `merge_and_trim` on an already sorted chain list. -/
def mergeAndTrimSorted : List MsgChain → List SMsg → Int → Int → Int → List SMsg × Int
  | [], result, _, gasLimit, _ => (result, gasLimit)
  | c0 :: rest, result, baseFee, gasLimit, minGas =>
    if c0.gasPerf < 0 then ([], gasLimit)
    else tailPhase baseFee minGas (mergeLoop (c0 :: rest) result gasLimit)

/-- Embeds `merge_and_trim` (selection.rs lines 252-317): sort the chains
descending, return an empty selection (discarding `result`) if the top chain
has negative performance, merge fitting chains, then run the tail loop. -/
def mergeAndTrim (chains : List MsgChain) (result : List SMsg) (baseFee : Int)
    (gasLimit minGas : Int) : List SMsg × Int :=
  mergeAndTrimSorted (sortChainsDesc chains) result baseFee gasLimit minGas

/-! ### Chain construction (modelled from the spec, section 4.2) -/

/-- An actor's on-chain view used when filtering pending messages: balance
and committed sequence. -/
structure ActorChainState where
  balance : Int
  sequence : Nat
deriving DecidableEq

/-- Modelled from the spec: the funds a message requires at the base fee
(section 4.2 step 2). -/
def requiredFunds (m : SMsg) : Int :=
  m.gasFeeCap * m.gasLimit + m.value

/-- Insertion step for sorting a sequence-keyed message list. -/
def insertBySeq (p : Nat × SMsg) : List (Nat × SMsg) → List (Nat × SMsg)
  | [] => [p]
  | q :: rest => if p.1 ≤ q.1 then p :: q :: rest else q :: insertBySeq p rest

/-- Sort a sender's pending messages by sequence (section 4.2 step 1). -/
def sortBySeq (l : List (Nat × SMsg)) : List (Nat × SMsg) :=
  l.foldr insertBySeq []

/-- Modelled from the spec: the retained head of a sender's sorted messages
(section 4.2 step 2) — contiguous sequences starting at the committed
sequence, with cumulative required funds within the balance; the first
failure drops that message and all following. -/
def retainedHead : Nat → Int → List SMsg → List SMsg
  | _, _, [] => []
  | seq, bal, m :: rest =>
    if m.sequence = seq ∧ requiredFunds m ≤ bal then
      m :: retainedHead (seq + 1) (bal - requiredFunds m) rest
    else []

/-- Build one chain node over the given messages, with exact aggregates
(spec section 3: aggregate gas limit, aggregate reward, performance as their
ratio). -/
def mkChain (sender : Addr) (baseFee : Int) (msgs : List SMsg) : MsgChain :=
  let gl := gasSum msgs
  let gr := rewardSum baseFee msgs
  { msgs := msgs, gasLimit := gl, gasReward := gr, gasPerf := perfOf gr gl,
    effPerf := 0, valid := true, sender := sender }

/-- Modelled from the spec: the cutting walk (section 4.2 step 4) — extend
the current run while appending the next message does not strictly decrease
the running gas performance; cut otherwise. -/
def cutChains (sender : Addr) (baseFee : Int) (cur : List SMsg) :
    List SMsg → List MsgChain
  | [] => if cur.isEmpty then [] else [mkChain sender baseFee cur]
  | m :: rest =>
    if cur.isEmpty then cutChains sender baseFee (cur ++ [m]) rest
    else if perfOf (rewardSum baseFee (cur ++ [m])) (gasSum (cur ++ [m]))
        < perfOf (rewardSum baseFee cur) (gasSum cur) then
      mkChain sender baseFee cur :: cutChains sender baseFee [m] rest
    else cutChains sender baseFee (cur ++ [m]) rest

/-- Modelled from the spec: `create_message_chains` / `build_chains`
(section 4.2), which lives in a sibling module not under `src/`: sort by
sequence, retain the valid head, cut into chains at performance drops. -/
def createMessageChains (st : ActorChainState) (sender : Addr)
    (mset : List (Nat × SMsg)) (baseFee : Int) : List MsgChain :=
  let msgs := (sortBySeq mset).map Prod.snd
  cutChains sender baseFee [] (retainedHead st.sequence st.balance msgs)

/-! ### Pending maps, tipsets and the reorg walk -/

/-- A sender's pending messages, keyed by sequence (Rust
`HashMap<u64, SignedMessage>`, modelled as an association list). -/
abbrev MsgMap := List (Nat × SMsg)

/-- The pending map: sender to message map (Rust
`HashMap<Address, HashMap<u64, SignedMessage>>`). -/
abbrev PendingMap := List (Addr × MsgMap)

/-- Insert-or-replace into a message map (Rust `HashMap::insert`). -/
def msgMapSet (m : MsgMap) (k : Nat) (v : SMsg) : MsgMap :=
  if m.any (fun p => p.1 == k) then m.map (fun p => if p.1 == k then (k, v) else p)
  else m ++ [(k, v)]

/-- Remove a sequence key from a message map. -/
def msgMapRemove (m : MsgMap) (k : Nat) : MsgMap :=
  m.filter (fun p => p.1 != k)

/-- Look a sender up in a pending map. -/
def pendingLookup (p : PendingMap) (a : Addr) : Option MsgMap :=
  (p.find? (fun q => q.1 == a)).map Prod.snd

/-- Look a sequence up in a message map. -/
def msgMapGet (m : MsgMap) (k : Nat) : Option SMsg :=
  (m.find? (fun q => q.1 == k)).map Prod.snd

/-- Look a `(sender, sequence)` key up in a pending map. -/
def pendingGet (p : PendingMap) (a : Addr) (k : Nat) : Option SMsg :=
  match pendingLookup p a with
  | some m => msgMapGet m k
  | none => none

/-- Insert a message under `(sender, sequence)`, creating the sender entry
when absent. -/
def pendingInsert (p : PendingMap) (a : Addr) (k : Nat) (v : SMsg) : PendingMap :=
  if (pendingLookup p a).isSome then
    p.map (fun q => if q.1 == a then (a, msgMapSet q.2 k v) else q)
  else p ++ [(a, [(k, v)])]

/-- Remove the `(sender, sequence)` key, keeping the sender entry. -/
def pendingRemoveKey (p : PendingMap) (a : Addr) (k : Nat) : PendingMap :=
  p.map (fun q => if q.1 == a then (a, msgMapRemove q.2 k) else q)

/-- Remove a sender entry altogether (Rust `HashMap::remove`). -/
def pendingRemoveActor (p : PendingMap) (a : Addr) : PendingMap :=
  p.filter (fun q => q.1 != a)

/-- A block header, abstracted to an identifier: the selection engine only
ever asks the provider for a block's messages. -/
structure Block where
  id : Nat
deriving DecidableEq

/-- A tipset: epoch, member blocks, and an abstract key standing for the
parent/ticket identity that Rust tipset equality compares. -/
structure Tipset where
  epoch : Int
  blocks : List Block
  key : Nat
deriving DecidableEq

/-- Modelled from the spec: the chain-reader interface (section 6) consumed
by the selection engine.  `loadParent ts` is `load_tipset(ts.parents())`;
`messagesForBlock` returns the BLS messages (only their `(sender, sequence)`
keys matter here) and the secp signed messages; `baseFee` is
`chain_compute_base_fee`; `actorState` is the actor lookup used when
filtering pending messages. -/
structure Provider where
  loadParent : Tipset → Option Tipset
  messagesForBlock : Block → List (Addr × Nat) × List SMsg
  baseFee : Tipset → Int
  actorState : Addr → ActorChainState

/-- Modelled from the spec: `add_to_selected_msgs` (section 4.1 step 3) —
insert the message into the snapshot keyed `(sender, sequence)`. -/
def addToSelectedMsgs (m : SMsg) (rmsgs : PendingMap) : PendingMap :=
  pendingInsert rmsgs m.sender m.sequence m

/-- Modelled from the spec: `remove_from_selected_msgs` (section 4.1 step 4)
— remove the `(sender, sequence)` key from the live pending map and from the
snapshot. -/
def removeFromSelectedMsgs (a : Addr) (k : Nat) (live rmsgs : PendingMap) :
    PendingMap × PendingMap :=
  (pendingRemoveKey live a k, pendingRemoveKey rmsgs a k)

/-- The reorg walk of `run_head_change` (selection.rs lines 332-346),
fuelled: pop whichever side has the higher epoch, loading its parent, until
the two tipsets meet; collect the popped tipsets into the left and right
chains.  A failed parent load (and fuel exhaustion, standing for a walk that
never meets) yields `none`, matching the `ChainRead` error propagation. -/
def walkChains (api : Provider) : Nat → Tipset → Tipset → Option (List Tipset × List Tipset)
  | 0, l, r => if l = r then some ([], []) else none
  | fuel + 1, l, r =>
    if l = r then some ([], [])
    else if l.epoch > r.epoch then
      match api.loadParent l with
      | none => none
      | some par => (walkChains api fuel par r).map (fun p => (l :: p.1, p.2))
    else
      match api.loadParent r with
      | none => none
      | some par => (walkChains api fuel l par).map (fun p => (p.1, r :: p.2))

/-- The left-chain pass of `run_head_change` (selection.rs lines 347-356):
for each tipset, add every secp message of every block back into the
snapshot. -/
def applyLeftChain (api : Provider) (lc : List Tipset) (rmsgs : PendingMap) : PendingMap :=
  lc.foldl
    (fun r ts =>
      ts.blocks.foldl
        (fun r b => ((api.messagesForBlock b).2).foldl (fun r m => addToSelectedMsgs m r) r)
        r)
    rmsgs

/-- Removal of one block's secp message keys from the live pending map and
the snapshot (selection.rs lines 362-365). -/
def removeMsgsSecp (api : Provider) (b : Block) (pr : PendingMap × PendingMap) :
    PendingMap × PendingMap :=
  ((api.messagesForBlock b).2).foldl
    (fun pr m => removeFromSelectedMsgs m.sender m.sequence pr.1 pr.2) pr

/-- Removal of one block's BLS message keys (selection.rs lines 366-369). -/
def removeMsgsBls (api : Provider) (b : Block) (pr : PendingMap × PendingMap) :
    PendingMap × PendingMap :=
  ((api.messagesForBlock b).1).foldl
    (fun pr q => removeFromSelectedMsgs q.1 q.2 pr.1 pr.2) pr

/-- The right-chain pass of `run_head_change` (selection.rs lines 358-371):
for each block, remove the keys of its secp messages and then of its BLS
messages from the live pending map and the snapshot. -/
def applyRightChain (api : Provider) (rc : List Tipset) (live rmsgs : PendingMap) :
    PendingMap × PendingMap :=
  rc.foldl
    (fun pr ts =>
      ts.blocks.foldl (fun pr b => removeMsgsBls api b (removeMsgsSecp api b pr)) pr)
    (live, rmsgs)

/-- Embeds `run_head_change` (selection.rs lines 321-373): walk back to the
common ancestor, re-add the left chain's messages to the snapshot, then
remove the right chain's message keys from the snapshot and the live pending
map.  Returns `(live pending, snapshot)`. -/
def runHeadChange (api : Provider) (fuel : Nat) (live : PendingMap)
    (src dst : Tipset) (rmsgs : PendingMap) : Option (PendingMap × PendingMap) :=
  match walkChains api fuel src dst with
  | none => none
  | some (lc, rc) => some (applyRightChain api rc live (applyLeftChain api lc rmsgs))

/-- Embeds `get_pending_messages` (selection.rs lines 179-221): in sync
(same epoch and equal tipsets) the snapshot is the live pending map;
otherwise the snapshot starts as a copy and `run_head_change` adjusts it and
the live map.  Returns `(live pending, snapshot)`. -/
def getPendingMessages (api : Provider) (fuel : Nat) (live : PendingMap)
    (curTs targetTs : Tipset) : Option (PendingMap × PendingMap) :=
  if curTs.epoch = targetTs.epoch ∧ curTs = targetTs then some (live, live)
  else runHeadChange api fuel live curTs targetTs live

/-- Message-pool configuration: the priority addresses and the
`size_limit_low` capacity hint (spec section 6). -/
structure MpoolConfig where
  priorityAddrs : List Addr
  sizeLimitLow : Nat

/-- One priority actor's step of `select_priority_messages` (selection.rs
lines 236-242): if the actor has pending messages, remove them from the
pending map and extend the chain pool. -/
def priorityStep (api : Provider) (baseFee : Int) (acc : PendingMap × List MsgChain)
    (actor : Addr) : PendingMap × List MsgChain :=
  match pendingLookup acc.1 actor with
  | some mset =>
      (pendingRemoveActor acc.1 actor,
       acc.2 ++ createMessageChains (api.actorState actor) actor mset baseFee)
  | none => acc

/-- The packing tail of `select_priority_messages` (selection.rs lines
243-247): an empty chain pool returns the full block gas limit untouched;
otherwise `merge_and_trim` packs from the full block gas limit. -/
def priorityFinish (baseFee : Int) (acc : PendingMap × List MsgChain) :
    PendingMap × List SMsg × Int :=
  if acc.2.isEmpty then (acc.1, [], BLOCK_GAS_LIMIT)
  else
    (acc.1, (mergeAndTrim acc.2 [] baseFee BLOCK_GAS_LIMIT MIN_GAS).1,
     (mergeAndTrim acc.2 [] baseFee BLOCK_GAS_LIMIT MIN_GAS).2)

/-- Embeds `select_priority_messages` (selection.rs lines 223-248): build
chains for each priority actor present in pending (removing it from
pending), and pack them with `merge_and_trim` from the full block gas limit.
Returns the pending map with priority actors removed, the selected messages
and the residual gas. -/
def selectPriorityMessages (api : Provider) (cfg : MpoolConfig) (pending : PendingMap)
    (baseFee : Int) : PendingMap × List SMsg × Int :=
  priorityFinish baseFee (cfg.priorityAddrs.foldl (priorityStep api baseFee) (pending, []))

/-- Chains for every sender left in a pending map (selection.rs lines
82-85 and 122-127). -/
def buildRemainingChains (api : Provider) (pending : PendingMap) (baseFee : Int) :
    List MsgChain :=
  pending.foldl
    (fun acc p => acc ++ createMessageChains (api.actorState p.1) p.1 p.2 baseFee) []

/-- The packing tail of the greedy path (selection.rs lines 77-88): return
the priority result when the residual gas is under `min_gas`, else build
chains for the remaining senders and pack them on top of the priority
result. -/
def greedyPack (api : Provider) (baseFee : Int) (pri : PendingMap × List SMsg × Int) :
    Except Error (List SMsg) :=
  if pri.2.2 < MIN_GAS then .ok pri.2.1
  else
    .ok (mergeAndTrim (buildRemainingChains api pri.1 baseFee)
          pri.2.1 baseFee pri.2.2 MIN_GAS).1

/-- Embeds `select_messages_greedy` (selection.rs lines 56-89). -/
def selectMessagesGreedy (api : Provider) (cfg : MpoolConfig) (fuel : Nat)
    (live : PendingMap) (curTs ts : Tipset) : Except Error (List SMsg) :=
  match getPendingMessages api fuel live curTs ts with
  | none => .error .chainRead
  | some (_, pending) =>
    if pending.isEmpty then .ok []
    else greedyPack api (api.baseFee ts)
      (selectPriorityMessages api cfg pending (api.baseFee ts))

/-- The tail of the optimal path after the priority stage
(selection.rs lines 117-176): return the priority result when the residual
gas is under `min_gas`; otherwise the source builds, partitions and re-sorts
the chains into local values (steps 1-5, lines 121-172), but its final
`merge_and_trim` call (line 174) is commented out and the function aborts
with `unimplemented` at line 176, so — those local computations having no
observable effect — the embedding returns the corresponding error. -/
def optimalTail (pri : PendingMap × List SMsg × Int) : Except Error (List SMsg) :=
  if pri.2.2 < MIN_GAS then .ok pri.2.1
  else .error .unimplemented

/-- Embeds `select_messages_optimal` (selection.rs lines 91-177). -/
def selectMessagesOptimal (api : Provider) (cfg : MpoolConfig) (fuel : Nat)
    (live : PendingMap) (curTs ts : Tipset) (_tq : Rat) : Except Error (List SMsg) :=
  match getPendingMessages api fuel live curTs ts with
  | none => .error .chainRead
  | some (_, pending) =>
    if pending.isEmpty then .ok []
    else optimalTail (selectPriorityMessages api cfg pending (api.baseFee ts))

/-- Embeds `select_messages` (selection.rs lines 38-54): run the greedy path
when the ticket quality exceeds 0.84, the optimal path otherwise, and
truncate the result to `MAX_BLOCK_MSGS`. -/
def selectMessages (api : Provider) (cfg : MpoolConfig) (fuel : Nat) (live : PendingMap)
    (curTs ts : Tipset) (tq : Rat) : Except Error (List SMsg) :=
  (if tq > (84 : Rat) / 100 then selectMessagesGreedy api cfg fuel live curTs ts
   else selectMessagesOptimal api cfg fuel live curTs ts tq).map
    (fun msgs => msgs.take MAX_BLOCK_MSGS)

/-! ## Derived predicates -/

/-- Every message in the list has a nonnegative gas limit. -/
def msgsNonneg (l : List SMsg) : Prop := ∀ m ∈ l, 0 ≤ m.gasLimit

/-- A chain's accounting is sound: its messages have nonnegative gas limits,
and its recorded aggregate gas limit is nonnegative and bounds the sum of
its messages' gas limits.  Freshly built chains record the exact sum; chains
whose messages `merge_and_trim` has already moved out keep their stale
aggregate, which the inequality form still covers. -/
def chainInv (c : MsgChain) : Prop :=
  msgsNonneg c.msgs ∧ gasSum c.msgs ≤ c.gasLimit ∧ 0 ≤ c.gasLimit

/-- Every message of every sender entry of the pending map has a
nonnegative gas limit. -/
def pendingWF (p : PendingMap) : Prop :=
  ∀ q ∈ p, ∀ r ∈ q.2, 0 ≤ (r : Nat × SMsg).2.gasLimit

/-- Every secp message the provider can return has a nonnegative gas
limit. -/
def providerWF (api : Provider) : Prop :=
  ∀ b : Block, ∀ m ∈ (api.messagesForBlock b).2, 0 ≤ m.gasLimit

/-- The failure condition of `check_voucher_valid` over loaded chain data:
the channel address mismatches, the signature is missing or invalid, the
voucher's lane has no entry in the lane-state map, the voucher's nonce or
amount does not exceed the stored lane's, the voucher carries merges, or the
total redeemed plus `to_send` exceeds the actor balance. -/
def voucherFailCond (env : ChainEnv) (ch : Addr) (sv : SignedVoucher) (balance : Int)
    (pst : PaychState) (payer : Addr) (vchs : List VoucherInfo) : Prop :=
  sv.channelAddr ≠ ch ∨
  sv.signature = none ∨
  (∃ s, sv.signature = some s ∧ ¬ env.verifySig s sv payer) ∨
  lsGet (laneStateMap pst.laneStates vchs) sv.lane = none ∨
  (∃ ls, lsGet (laneStateMap pst.laneStates vchs) sv.lane = some ls ∧
     (sv.nonce ≤ ls.nonce ∨ sv.amount ≤ ls.redeemed)) ∨
  sv.merges ≠ [] ∨
  balance < totalRedeemedPure (laneStateMap pst.laneStates vchs) sv + pst.toSend

/-! ## Concrete instances used for evaluation -/

/-- The lane-state map of the worked example in the source's own comment at
src/paych/src/paychannel.rs lines 177-189: lane 1 redeemed 3 and lane 2
redeemed 2 (both with nonce 1). -/
def exLaneStates : List (Nat × LaneState) := [(1, ⟨3, 1⟩), (2, ⟨2, 1⟩)]

/-- The voucher of that comment: lane 1, amount 5, superseding the lane. -/
def exVoucherC3 : SignedVoucher :=
  { channelAddr := 7, timeLockMin := 0, timeLockMax := 0, secretPreimage := [],
    extra := none, lane := 1, nonce := 2, amount := 5, minSettleHeight := 0,
    merges := [], signature := some ⟨[]⟩ }

/-- A paych actor state with balance headroom and an empty on-chain lane
AMT. -/
def pstC5 : PaychState := { src := 10, dst := 11, toSend := 0, laneStates := [] }

/-- An environment where every chain read succeeds, every signature
verifies, and the channel actor has balance 100 with the empty-AMT state. -/
def envC5 : ChainEnv :=
  { loadPaychState := fun _ => .ok (100, pstC5), accountAddr := fun a => .ok a,
    verifySig := fun _ _ _ => true, pushMsg := fun _ _ _ => .ok 99 }

/-- A tracked outbound channel at address 7 with no stored vouchers. -/
def ciC5 : ChannelInfo :=
  { id := 0, channel := some 7, control := 10, target := 11, direction := .outbound,
    amount := 0, pendingAmount := 0, nextLane := 0, createMsg := none, addFundsMsg := none,
    settling := false, vouchers := [] }

/-- A store tracking only the channel at address 7. -/
def storeC5 : PaychStore := ⟨[ciC5]⟩

/-- A well-formed voucher for lane 0 of the channel at address 7. -/
def svC5 : SignedVoucher :=
  { channelAddr := 7, timeLockMin := 0, timeLockMax := 0, secretPreimage := [],
    extra := none, lane := 0, nonce := 2, amount := 5, minSettleHeight := 0,
    merges := [], signature := some ⟨[]⟩ }

/-- A paych actor state whose on-chain AMT has lane 0 at nonce 1,
redeemed 2. -/
def pstW5 : PaychState := { src := 10, dst := 11, toSend := 0, laneStates := [(0, ⟨2, 1⟩)] }

/-- An environment holding `pstW5` with balance 100. -/
def envW5 : ChainEnv :=
  { loadPaychState := fun _ => .ok (100, pstW5), accountAddr := fun a => .ok a,
    verifySig := fun _ _ _ => true, pushMsg := fun _ _ _ => .ok 99 }

/-- A voucher superseding lane 0: nonce 2, amount 30. -/
def svW5 : SignedVoucher :=
  { channelAddr := 7, timeLockMin := 0, timeLockMax := 0, secretPreimage := [],
    extra := none, lane := 0, nonce := 2, amount := 30, minSettleHeight := 0,
    merges := [], signature := some ⟨[]⟩ }

/-- An environment whose paych actor state carries an on-chain entry for
lane 5 (nonce 0, redeemed 0) and balance 100. -/
def envC6 : ChainEnv :=
  { loadPaychState := fun _ =>
      .ok (100, { src := 10, dst := 11, toSend := 0, laneStates := [(5, ⟨0, 0⟩)] }),
    accountAddr := fun a => .ok a,
    verifySig := fun _ _ _ => true, pushMsg := fun _ _ _ => .ok 99 }

/-- A voucher for lane 5 (which was never allocated locally): nonce 1,
amount 10. -/
def svC6 : SignedVoucher :=
  { channelAddr := 7, timeLockMin := 0, timeLockMax := 0, secretPreimage := [],
    extra := none, lane := 5, nonce := 1, amount := 10, minSettleHeight := 0,
    merges := [], signature := some ⟨[]⟩ }

/-- The channel record after `add_voucher` accepts `svC6`: the voucher is
stored and `next_lane` was bumped from 0 to 1. -/
def ciC6p : ChannelInfo := { ciC5 with vouchers := [⟨svC6, [], false⟩], nextLane := 1 }

/-- The channel record `create_paych` adds for a request from 1 to 2 of
amount 5 when the message push yields CID 99. -/
def ciC4p : ChannelInfo :=
  { id := 0, channel := none, control := 1, target := 2, direction := .outbound,
    amount := 0, pendingAmount := 5, nextLane := 0, createMsg := some 99,
    addFundsMsg := none, settling := false, vouchers := [] }

/-- A voucher for lane 0 at nonce 1 of amount 3, stored with proof `[1]`. -/
def svW7 : SignedVoucher :=
  { channelAddr := 7, timeLockMin := 0, timeLockMax := 0, secretPreimage := [],
    extra := none, lane := 0, nonce := 1, amount := 3, minSettleHeight := 0,
    merges := [], signature := some ⟨[]⟩ }

/-- `svW7` stored with proof `[1]`, not yet submitted. -/
def viW7 : VoucherInfo := ⟨svW7, [1], false⟩

/-- The channel at address 7 already holding `viW7`. -/
def ciW7 : ChannelInfo := { ciC5 with vouchers := [viW7] }

/-- A store tracking `ciW7`. -/
def storeW7 : PaychStore := ⟨[ciW7]⟩

/-- The `(sender, sequence)` key occurs among the messages (BLS or secp) of
the tipset's blocks. -/
def keyInBlocks (api : Provider) (ts : Tipset) (a : Addr) (k : Nat) : Prop :=
  ∃ b ∈ ts.blocks, (a, k) ∈ (api.messagesForBlock b).1 ∨
    ∃ m ∈ (api.messagesForBlock b).2, m.sender = a ∧ m.sequence = k

/-- The `(sender, sequence)` key occurs somewhere on a chain of tipsets. -/
def keyOnChain (api : Provider) (chainTs : List Tipset) (a : Addr) (k : Nat) : Prop :=
  ∃ ts ∈ chainTs, keyInBlocks api ts a k

/-- A genesis-like tipset: selection against it is in sync. -/
def tsA : Tipset := { epoch := 0, blocks := [], key := 0 }

/-- A provider with base fee 10, no block messages, and a single funded
actor state (balance 1000000, sequence 0) for every address. -/
def apiA : Provider :=
  { loadParent := fun _ => none,
    messagesForBlock := fun _ => ([], []),
    baseFee := fun _ => 10,
    actorState := fun _ => { balance := 1000000, sequence := 0 } }

/-- A profitable message from sender 1: fee cap 20 over base fee 10,
premium 5, gas limit 100. -/
def mA : SMsg :=
  { sender := 1, sequence := 0, gasLimit := 100, gasFeeCap := 20, gasPremium := 5, value := 0 }

/-- A negatively performing message from sender 2: fee cap 5 under base fee
10, so its effective premium is -5. -/
def mB : SMsg :=
  { sender := 2, sequence := 0, gasLimit := 100, gasFeeCap := 5, gasPremium := 5, value := 0 }

/-- A pending map with the profitable sender 1 and the unprofitable
sender 2. -/
def liveA : PendingMap := [(1, [(0, mA)]), (2, [(0, mB)])]

/-- A pending map with only sender 1. -/
def liveA1 : PendingMap := [(1, [(0, mA)])]

/-- A config listing sender 1 as a priority address. -/
def cfgA : MpoolConfig := { priorityAddrs := [1], sizeLimitLow := 0 }

/-- A config with no priority addresses. -/
def cfgEmpty : MpoolConfig := { priorityAddrs := [], sizeLimitLow := 0 }

/-- The single negative-performance chain built for sender 2 at base
fee 10. -/
def cB : MsgChain := mkChain 2 10 [mB]

/-- The block of the current-branch tipset in the reorg example. -/
def blk1 : Block := ⟨1⟩

/-- The block of the target-branch tipset in the reorg example. -/
def blk2 : Block := ⟨2⟩

/-- The common ancestor tipset of the reorg example. -/
def tsG : Tipset := { epoch := 0, blocks := [], key := 0 }

/-- The current-branch (left) tipset: epoch 1, block `blk1`. -/
def tsL : Tipset := { epoch := 1, blocks := [blk1], key := 1 }

/-- The target-branch (right) sibling tipset: epoch 1, block `blk2`. -/
def tsR : Tipset := { epoch := 1, blocks := [blk2], key := 2 }

/-- A signed message included by both sibling tipsets. -/
def mShared : SMsg :=
  { sender := 3, sequence := 0, gasLimit := 100, gasFeeCap := 20, gasPremium := 5, value := 0 }

/-- A provider in which both sibling tipsets descend from `tsG` and both
blocks carry the same signed message `mShared`. -/
def apiReorg : Provider :=
  { loadParent := fun ts => if ts.key = 1 ∨ ts.key = 2 then some tsG else none,
    messagesForBlock := fun b => ([], if b.id = 1 ∨ b.id = 2 then [mShared] else []),
    baseFee := fun _ => 10,
    actorState := fun _ => ⟨1000000, 0⟩ }

/-! ## Theorems

General-purpose reduction lemmas first, then the helper lemmas, then the
claim theorems. -/

@[simp] theorem except_map_ok {α β : Type} (f : α → β) (a : α) :
    Except.map f (Except.ok a : Except Error α) = .ok (f a) := rfl

@[simp] theorem except_map_error {α β : Type} (f : α → β) (e : Error) :
    Except.map f (Except.error e : Except Error α) = .error e := rfl

@[simp] theorem except_bind_ok {α β : Type} (a : α) (f : α → Except Error β) :
    (Except.ok a >>= f) = f a := rfl

@[simp] theorem except_bind_error {α β : Type} (e : Error) (f : α → Except Error β) :
    ((Except.error e : Except Error α) >>= f) = .error e := rfl

@[simp] theorem except_pure_eq {α : Type} (a : α) : (pure a : Except Error α) = .ok a := rfl

@[simp] theorem except_throw_eq {α : Type} (e : Error) : (throw e : Except Error α) = .error e := rfl

/-! ### Core B helper lemmas -/

theorem updateDupProof_found (pre post : List VoucherInfo) (vi : VoucherInfo)
    (sv : SignedVoucher) (proof : Bytes) (hvi : vi.voucher = sv)
    (hpre : ∀ w ∈ pre, w.voucher ≠ sv) :
    updateDupProof (pre ++ vi :: post) sv proof =
      if proof ≠ [] ∧ vi.proof ≠ proof then
        some (pre ++ { vi with proof := proof } :: post, true)
      else some (pre ++ vi :: post, false) := by
  induction pre with
  | nil =>
    simp only [List.nil_append, updateDupProof, hvi, if_true, ite_true]
  | cons w rest ih =>
    have hw : w.voucher ≠ sv := hpre w (by simp)
    have ih2 := ih (fun x hx => hpre x (by simp [hx]))
    simp only [List.cons_append, updateDupProof, hw, if_false, ite_false, List.append_eq]
    rw [ih2]
    split <;> simp

theorem updateDupProof_none (l : List VoucherInfo) (sv : SignedVoucher) (proof : Bytes)
    (h : ∀ vi ∈ l, vi.voucher ≠ sv) : updateDupProof l sv proof = none := by
  induction l with
  | nil => rfl
  | cons w rest ih =>
    have hw : w.voucher ≠ sv := h w (by simp)
    simp [updateDupProof, hw, ih (fun x hx => h x (by simp [hx]))]

theorem findMapNe (m : List (Nat × LaneState)) (l k : Nat) (v : LaneState) (h : l ≠ k) :
    ((m.map (fun p => if p.1 == l then (l, v) else p)).find? (fun p => p.1 == k)).map Prod.snd
      = (m.find? (fun p => p.1 == k)).map Prod.snd := by
  induction m with
  | nil => rfl
  | cons p rest ih =>
    by_cases hp : p.1 = l
    · have e1 : (if p.1 == l then (l, v) else p) = (l, v) := by simp [hp]
      simp only [List.map_cons, e1]
      rw [List.find?_cons_of_neg, List.find?_cons_of_neg]
      · exact ih
      · simp [hp, h]
      · simp [h]
    · have e1 : (if p.1 == l then (l, v) else p) = p := by simp [hp]
      simp only [List.map_cons, e1]
      by_cases hk : p.1 = k
      · rw [List.find?_cons_of_pos, List.find?_cons_of_pos] <;> simp [hk]
      · rw [List.find?_cons_of_neg, List.find?_cons_of_neg]
        · exact ih
        · simp [hk]
        · simp [hk]

theorem lsGet_lsInsert_of_ne (m : List (Nat × LaneState)) (l k : Nat) (v : LaneState)
    (h : l ≠ k) : lsGet (lsInsert m l v) k = lsGet m k := by
  unfold lsInsert lsGet
  split
  · exact findMapNe m l k v h
  · rw [List.find?_append]
    simp [h]

theorem overlayWrite_absent (m : List (Nat × LaneState)) (v : VoucherInfo) (k : Nat)
    (hm : lsGet m k = none) (hlane : v.voucher.lane ≠ k) :
    lsGet (overlayWrite m v) k = none := by
  unfold overlayWrite
  split
  · split
    · exact hm
    · rw [lsGet_lsInsert_of_ne _ _ _ _ hlane]; exact hm
  · exact hm

theorem laneOverlayStep_absent (m : List (Nat × LaneState)) (v : VoucherInfo) (k : Nat)
    (hm : lsGet m k = none) (hlane : v.voucher.lane ≠ k) :
    lsGet (laneOverlayStep m v) k = none := by
  unfold laneOverlayStep
  apply overlayWrite_absent _ _ _ _ hlane
  split
  · exact hm
  · rw [lsGet_lsInsert_of_ne _ _ _ _ hlane]; exact hm

theorem laneStateMap_cons (amt : List (Nat × LaneState)) (v : VoucherInfo)
    (rest : List VoucherInfo) :
    laneStateMap amt (v :: rest) = laneStateMap (laneOverlayStep amt v) rest := by
  simp [laneStateMap]

theorem laneStateMap_lane_absent (amt : List (Nat × LaneState)) (vchs : List VoucherInfo)
    (k : Nat) (hamt : lsGet amt k = none) (hv : ∀ v ∈ vchs, v.voucher.lane ≠ k) :
    lsGet (laneStateMap amt vchs) k = none := by
  induction vchs generalizing amt with
  | nil => simpa [laneStateMap] using hamt
  | cons v rest ih =>
    rw [laneStateMap_cons]
    exact ih (laneOverlayStep amt v)
      (laneOverlayStep_absent amt v k hamt (hv v (by simp)))
      (fun x hx => hv x (by simp [hx]))

theorem cvv_error_of_lane_absent (env : ChainEnv) (store : PaychStore) (ch : Addr)
    (sv : SignedVoucher) (ci : ChannelInfo)
    (hci : store.byAddress ch = .ok ci)
    (hamt : ∀ balance pst, env.loadPaychState ch = .ok (balance, pst) →
        lsGet pst.laneStates sv.lane = none)
    (hloc : ∀ vi ∈ ci.vouchers, vi.voucher.lane ≠ sv.lane) :
    ∃ e, checkVoucherValid env store ch sv = .error e := by
  unfold checkVoucherValid
  by_cases h1 : sv.channelAddr = ch
  · simp only [h1, ne_eq, not_true_eq_false, if_false, ite_false, except_pure_eq,
      except_bind_ok]
    cases hp : env.loadPaychState ch with
    | error e => exact ⟨e, rfl⟩
    | ok bp =>
      obtain ⟨balance, pst⟩ := bp
      have habs : lsGet pst.laneStates sv.lane = none := hamt balance pst hp
      simp only [except_bind_ok]
      cases ha : env.accountAddr pst.src with
      | error e => exact ⟨e, rfl⟩
      | ok payer =>
        simp only [except_bind_ok]
        cases hs : sv.signature with
        | none => exact ⟨.noSig, rfl⟩
        | some s =>
          simp only [except_bind_ok]
          by_cases h3 : env.verifySig s sv payer
          · have hls : laneState store pst ch =
                .ok (laneStateMap pst.laneStates ci.vouchers) := by
              simp [laneState, PaychStore.vouchersForPaych, hci]
            have hnone := laneStateMap_lane_absent pst.laneStates ci.vouchers sv.lane habs hloc
            refine ⟨.noLaneState, ?_⟩
            simp [h3, hls, hnone]
          · refine ⟨.sigInvalid, ?_⟩
            simp [h3]
  · exact ⟨.channelMismatch, by simp [h1]⟩

theorem addVoucher_error_propagates (env : ChainEnv) (store : PaychStore) (ch : Addr)
    (sv : SignedVoucher) (proof : Bytes) (minDelta : Int) (ci : ChannelInfo) (e : Error)
    (hci : store.byAddress ch = .ok ci)
    (hnodup : updateDupProof ci.vouchers sv proof = none)
    (hcvv : checkVoucherValid env store ch sv = .error e) :
    addVoucher env store ch sv proof minDelta = .error e := by
  unfold addVoucher
  simp [hci, hnodup, hcvv]

/-! ### Claim theorems for Core B -/

/-- C3: evaluating the source's `total_redeemed_with_voucher` on the very
example of its own documentation comment (lane 1 redeemed 3, lane 2 redeemed
2, a voucher superseding lane 1 with amount 5) yields 4 — the code sums each
lane's `nonce` rather than its `redeemed` amount — while the spec's
formula (sum of redeemed with the voucher's lane replaced) yields the
documented total of 7. -/
theorem totalRedeemed_sums_nonces_not_redeemed :
    totalRedeemedWithVoucher exLaneStates exVoucherC3 = .ok 4 ∧
    specTotalRedeemedWithVoucher exLaneStates exVoucherC3 = .ok 7 := ⟨rfl, rfl⟩

/-- C4: when no channel is tracked for `(from, to)` (the outbound-active
lookup fails with `ChannelNotTracked`), `process_task` returns that error as
the request result instead of creating a channel: the store is left
unchanged and no message CID is produced — even though `create_paych`
itself would have succeeded in the same environment, returning CID 99 and
recording the new channel. -/
theorem processTask_untracked_returns_error :
    processTask envC5 (⟨[]⟩ : PaychStore) 1 2 5 =
      (some { channel := none, mcid := none, err := some .channelNotTracked }, ⟨[]⟩) ∧
    createPaych envC5 (⟨[]⟩ : PaychStore) 1 2 5 = .ok (99, ⟨[ciC4p]⟩) :=
  ⟨rfl, rfl⟩

/-- C5 (counterexample): `check_voucher_valid` fails on a voucher for which
none of the claim's listed failure conditions holds: the channel address
matches, a signature is present and every signature verifies, the voucher
has no merges, the funds check would pass, and there is no stored lane at
all (so the nonce and amount conditions are vacuous) — yet the call fails,
because the voucher's lane has no entry in the lane-state map. -/
theorem checkVoucherValid_fails_outside_claimed_conditions :
    checkVoucherValid envC5 storeC5 7 svC5 = .error .noLaneState ∧
    svC5.channelAddr = 7 ∧
    svC5.signature = some ⟨[]⟩ ∧
    (∀ s payer, envC5.verifySig s svC5 payer = true) ∧
    svC5.merges = [] ∧
    envC5.loadPaychState 7 = .ok (100, pstC5) ∧
    totalRedeemedPure (laneStateMap pstC5.laneStates ciC5.vouchers) svC5 + pstC5.toSend ≤ 100 ∧
    lsGet (laneStateMap pstC5.laneStates ciC5.vouchers) svC5.lane = none :=
  ⟨rfl, rfl, rfl, fun _ _ => rfl, rfl, rfl, by decide, rfl⟩

/-- C5 (amended): given that the paych state, the payer's account address
and the stored vouchers load successfully, `check_voucher_valid` fails
exactly under the claim's conditions extended with one more: the voucher's
lane has no entry in the lane-state map built from the on-chain AMT and the
locally stored vouchers.  Otherwise it returns the lane-state map. -/
theorem checkVoucherValid_error_characterization (env : ChainEnv) (store : PaychStore)
    (ch : Addr) (sv : SignedVoucher) (balance : Int) (pst : PaychState) (payer : Addr)
    (vchs : List VoucherInfo)
    (hp : env.loadPaychState ch = .ok (balance, pst))
    (ha : env.accountAddr pst.src = .ok payer)
    (hv : store.vouchersForPaych ch = .ok vchs) :
    (checkVoucherValid env store ch sv = .ok (laneStateMap pst.laneStates vchs) ↔
      ¬ voucherFailCond env ch sv balance pst payer vchs) ∧
    ((∃ e, checkVoucherValid env store ch sv = .error e) ↔
      voucherFailCond env ch sv balance pst payer vchs) := by
  have hls : laneState store pst ch = .ok (laneStateMap pst.laneStates vchs) := by
    simp [laneState, hv]
  unfold checkVoucherValid
  rw [voucherFailCond]
  by_cases h1 : sv.channelAddr = ch
  · simp only [h1, ne_eq, not_true_eq_false, if_false, ite_false, except_pure_eq,
      except_bind_ok, hp, ha, hls]
    cases hs : sv.signature with
    | none => simp [hs, h1]
    | some s =>
      simp only [except_bind_ok]
      by_cases h3 : env.verifySig s sv payer
      · simp only [h3, Bool.not_true, ite_false, Bool.false_eq_true, if_false,
          except_pure_eq, except_bind_ok]
        cases hg : lsGet (laneStateMap pst.laneStates vchs) sv.lane with
        | none => simp [hg, h1, hs, h3]
        | some ls =>
          simp only [except_bind_ok]
          by_cases h4 : ls.nonce ≥ sv.nonce
          · simp [h4, h1, hs, h3, hg]
          · simp only [h4, ite_false, if_false, except_bind_ok, except_throw_eq]
            by_cases h5 : ls.redeemed ≥ sv.amount
            · simp [h5, h4, h1, hs, h3, hg]
            · simp only [h5, ite_false, if_false, except_bind_ok]
              unfold totalRedeemedWithVoucher
              cases hm : sv.merges with
              | nil =>
                simp only [hm, List.isEmpty_nil, Bool.not_true, Bool.false_eq_true, if_false,
                  ite_false, except_bind_ok]
                by_cases h7 : balance <
                    totalRedeemedPure (laneStateMap pst.laneStates vchs) sv + pst.toSend
                · simp [h7, h1, hs, h3, hg, h4, h5, hm]
                · simp [h7, h1, hs, h3, hg, h4, h5, hm]
              | cons mg mgs =>
                simp [hm, h1, hs, h3, hg, h4, h5]
      · simp [h3, h1, hs]
  · simp [h1]

/-- Witness for C5 (amended): the characterization applied to a concrete
valid voucher (lane 0, nonce 2, amount 30 over a stored lane at nonce 1,
redeemed 2, balance 100). -/
theorem checkVoucherValid_error_characterization_witness :
    (checkVoucherValid envW5 storeC5 7 svW5 =
        .ok (laneStateMap pstW5.laneStates ciC5.vouchers) ↔
      ¬ voucherFailCond envW5 7 svW5 100 pstW5 10 ciC5.vouchers) ∧
    ((∃ e, checkVoucherValid envW5 storeC5 7 svW5 = .error e) ↔
      voucherFailCond envW5 7 svW5 100 pstW5 10 ciC5.vouchers) :=
  checkVoucherValid_error_characterization envW5 storeC5 7 svW5 100 pstW5 10 ciC5.vouchers
    rfl rfl rfl

/-- C6: `add_voucher` accepts a voucher for lane 5 into a channel whose
`next_lane` is 0 (the lane exists on chain but was never allocated locally)
and merely increments `next_lane` to 1, so the stored channel violates
`next_lane > lane` for the voucher just added. -/
theorem addVoucher_nextLane_not_above_lane :
    addVoucher envC6 storeC5 7 svC6 [] 0 = .ok (10, ⟨[ciC6p]⟩) ∧
    ciC6p.vouchers = [⟨svC6, [], false⟩] ∧ svC6.lane = 5 ∧ ciC6p.nextLane = 1 ∧
    ¬ svC6.lane < ciC6p.nextLane := ⟨rfl, rfl, rfl, rfl, by decide⟩

/-- C7: re-adding a voucher byte-identical to a stored one returns 0 and
leaves the store unchanged when the proof is empty or matches; with a
different non-empty proof it returns 1 and updates exactly that voucher's
proof.  The environment is arbitrary, so no validation happens, and the
voucher list keeps its shape, so nothing is appended. -/
theorem addVoucher_idempotent_on_duplicate (env : ChainEnv) (store : PaychStore) (ch : Addr)
    (sv : SignedVoucher) (proof : Bytes) (minDelta : Int) (ci : ChannelInfo)
    (pre post : List VoucherInfo) (vi : VoucherInfo)
    (hci : store.byAddress ch = .ok ci)
    (hsplit : ci.vouchers = pre ++ vi :: post)
    (hvi : vi.voucher = sv)
    (hpre : ∀ w ∈ pre, w.voucher ≠ sv) :
    ((proof = [] ∨ vi.proof = proof) →
        addVoucher env store ch sv proof minDelta = .ok (0, store)) ∧
    (proof ≠ [] → vi.proof ≠ proof →
        addVoucher env store ch sv proof minDelta =
          .ok (1, store.putChannelInfo
            { ci with vouchers := pre ++ { vi with proof := proof } :: post })) := by
  have hupd := updateDupProof_found pre post vi sv proof hvi hpre
  constructor
  · intro hcase
    have hno : ¬(proof ≠ [] ∧ vi.proof ≠ proof) := by
      rcases hcase with h | h <;> simp [h]
    unfold addVoucher
    simp [hci, hsplit, hupd, hno]
  · intro hp1 hp2
    unfold addVoucher
    simp [hci, hsplit, hupd, hp1, hp2]

/-- Witness for C7: re-adding the stored voucher `viW7` (proof `[1]`) with
the differing non-empty proof `[2]` returns 1 and rewrites only that
voucher's proof. -/
theorem addVoucher_idempotent_on_duplicate_witness :
    addVoucher envC5 storeW7 7 svW7 [2] 0 =
      .ok (1, storeW7.putChannelInfo
        { ciW7 with vouchers := [] ++ { viW7 with proof := [2] } :: [] }) :=
  (addVoucher_idempotent_on_duplicate envC5 storeW7 7 svW7 [2] 0 ciW7 [] [] viW7
    rfl rfl rfl (by simp)).2 (by decide) (by decide)

/-- C10: when the voucher's lane has no entry in the on-chain lane-state AMT
and no locally stored voucher uses that lane, `check_voucher_valid` fails,
and consequently `add_voucher` (for which such a voucher can never be a
stored duplicate) fails as well: the first voucher of an unknown lane is
never accepted. -/
theorem addVoucher_rejects_unknown_lane (env : ChainEnv) (store : PaychStore) (ch : Addr)
    (sv : SignedVoucher) (proof : Bytes) (minDelta : Int) (ci : ChannelInfo)
    (hci : store.byAddress ch = .ok ci)
    (hamt : ∀ balance pst, env.loadPaychState ch = .ok (balance, pst) →
        lsGet pst.laneStates sv.lane = none)
    (hloc : ∀ vi ∈ ci.vouchers, vi.voucher.lane ≠ sv.lane) :
    (∃ e, checkVoucherValid env store ch sv = .error e) ∧
    (∃ e, addVoucher env store ch sv proof minDelta = .error e) := by
  obtain ⟨e, he⟩ := cvv_error_of_lane_absent env store ch sv ci hci hamt hloc
  have hnd : updateDupProof ci.vouchers sv proof = none :=
    updateDupProof_none _ _ _ (fun vi hvi heq => hloc vi hvi (by rw [heq]))
  exact ⟨⟨e, he⟩, ⟨e, addVoucher_error_propagates env store ch sv proof minDelta ci e hci hnd he⟩⟩

/-- Witness for C10: the channel at address 7 is tracked with no stored
vouchers, the on-chain AMT is empty, and the voucher for lane 0 is
rejected by both `check_voucher_valid` and `add_voucher`. -/
theorem addVoucher_rejects_unknown_lane_witness :
    (∃ e, checkVoucherValid envC5 storeC5 7 svC5 = .error e) ∧
    (∃ e, addVoucher envC5 storeC5 7 svC5 [] 0 = .error e) :=
  addVoucher_rejects_unknown_lane envC5 storeC5 7 svC5 [] 0 ciC5 rfl
    (fun balance pst h => by cases h; rfl) (by simp [ciC5])

/-! ### Core A helper lemmas and claim theorems -/


theorem gasSum_nil : gasSum [] = 0 := rfl

theorem gasSum_append (a b : List SMsg) : gasSum (a ++ b) = gasSum a + gasSum b := by
  simp [gasSum]

theorem gasSum_nonneg (l : List SMsg) (h : msgsNonneg l) : 0 ≤ gasSum l := by
  induction l with
  | nil => simp [gasSum]
  | cons m rest ih =>
    have h1 : 0 ≤ m.gasLimit := h m (by simp)
    have h2 : 0 ≤ gasSum rest := ih (fun x hx => h x (by simp [hx]))
    have h3 : gasSum (m :: rest) = m.gasLimit + gasSum rest := by simp [gasSum]
    omega

theorem msgsNonneg_append (a b : List SMsg) (ha : msgsNonneg a) (hb : msgsNonneg b) :
    msgsNonneg (a ++ b) := by
  intro m hm
  rcases List.mem_append.mp hm with h | h
  · exact ha m h
  · exact hb m h

theorem trimAux_inv (fuel : Nat) (msgs : List SMsg) (gl gr gasLimit baseFee : Int)
    (hm : msgsNonneg msgs) (h1 : gasSum msgs ≤ gl) (h2 : 0 ≤ gl) :
    msgsNonneg (trimAux fuel msgs gl gr gasLimit baseFee).1 ∧
    (∀ m ∈ (trimAux fuel msgs gl gr gasLimit baseFee).1, m ∈ msgs) ∧
    gasSum (trimAux fuel msgs gl gr gasLimit baseFee).1 ≤
      (trimAux fuel msgs gl gr gasLimit baseFee).2.1 ∧
    0 ≤ (trimAux fuel msgs gl gr gasLimit baseFee).2.1 := by
  induction fuel generalizing msgs gl gr with
  | zero => exact ⟨hm, fun m hmm => hmm, h1, h2⟩
  | succ fuel ih =>
    unfold trimAux
    split
    · cases hlast : msgs.getLast? with
      | none => exact ⟨hm, fun m hmm => hmm, h1, h2⟩
      | some m =>
        have hne : msgs ≠ [] := by
          intro h; rw [h] at hlast; simp at hlast
        have hdecomp : msgs.dropLast ++ [m] = msgs := by
          have h3 := List.dropLast_append_getLast hne
          rw [List.getLast?_eq_getLast msgs hne] at hlast
          rw [Option.some_inj] at hlast
          rw [hlast] at h3
          exact h3
        have hmem : ∀ x ∈ msgs.dropLast, x ∈ msgs := by
          intro x hx; rw [← hdecomp]; exact List.mem_append_left _ hx
        have hm2 : msgsNonneg msgs.dropLast := fun x hx => hm x (hmem x hx)
        have hmg : 0 ≤ m.gasLimit := hm m (by rw [← hdecomp]; simp)
        have hsum : gasSum msgs = gasSum msgs.dropLast + m.gasLimit := by
          conv_lhs => rw [← hdecomp]
          rw [gasSum_append]; simp [gasSum]
        have hd0 : 0 ≤ gasSum msgs.dropLast := gasSum_nonneg _ hm2
        have h1a : gasSum msgs.dropLast ≤ gl - m.gasLimit := by omega
        have h2a : 0 ≤ gl - m.gasLimit := by omega
        obtain ⟨a, b, c, d⟩ :=
          ih msgs.dropLast (gl - m.gasLimit) (gr - msgReward baseFee m) hm2 h1a h2a
        exact ⟨a, fun x hx => hmem x (b x hx), c, d⟩
    · exact ⟨hm, fun m hmm => hmm, h1, h2⟩

theorem trimFinish_msgs (c : MsgChain) (t : List SMsg × Int × Int) :
    (trimFinish c t).msgs = t.1 ∧ (trimFinish c t).gasLimit = t.2.1 := by
  unfold trimFinish
  split <;> exact ⟨rfl, rfl⟩

theorem trim_inv (c : MsgChain) (gasLimit baseFee : Int) (hc : chainInv c) :
    chainInv (c.trim gasLimit baseFee) ∧
    (∀ m ∈ (c.trim gasLimit baseFee).msgs, m ∈ c.msgs) := by
  obtain ⟨hm, h1, h2⟩ := hc
  obtain ⟨a, b, cc, d⟩ := trimAux_inv c.msgs.length c.msgs c.gasLimit c.gasReward
    gasLimit baseFee hm h1 h2
  unfold MsgChain.trim
  obtain ⟨e1, e2⟩ := trimFinish_msgs c
    (trimAux c.msgs.length c.msgs c.gasLimit c.gasReward gasLimit baseFee)
  rw [chainInv, e1, e2]
  exact ⟨⟨a, cc, d⟩, b⟩

theorem mem_pushDown (c : MsgChain) (l : List MsgChain) (x : MsgChain)
    (hx : x ∈ pushDown c l) : x = c ∨ x ∈ l := by
  induction l with
  | nil => exact Or.inl (by simpa [pushDown] using hx)
  | cons d rest ih =>
    unfold pushDown at hx
    split at hx
    · rcases List.mem_cons.mp hx with h | h
      · exact Or.inl h
      · exact Or.inr h
    · rcases List.mem_cons.mp hx with h | h
      · exact Or.inr (by simp [h])
      · rcases ih h with h2 | h2
        · exact Or.inl h2
        · exact Or.inr (by simp [h2])

theorem scanChains_inv (B : Int) (l : List MsgChain) : ∀ (res : List SMsg) (gl : Int),
    (∀ c ∈ l, chainInv c) → gasSum res + gl ≤ B → 0 ≤ gl → msgsNonneg res →
    gasSum (scanChains l res gl).1 + (scanChains l res gl).2.1 ≤ B ∧
    0 ≤ (scanChains l res gl).2.1 ∧
    msgsNonneg (scanChains l res gl).1 ∧
    (∀ rest, (scanChains l res gl).2.2 = some rest → ∀ c ∈ rest, chainInv c) := by
  induction l with
  | nil =>
    intro res gl hc hres hg hnn
    refine ⟨hres, hg, hnn, ?_⟩
    intro rest h
    simp [scanChains] at h
  | cons c rest ih =>
    intro res gl hc hres hg hnn
    unfold scanChains
    split
    · exact ih res gl (fun x hx => hc x (by simp [hx])) hres hg hnn
    · split
      · refine ⟨hres, hg, hnn, ?_⟩
        intro r h
        simp at h
      · split
        · have hcc : chainInv c := hc c (by simp)
          obtain ⟨ha, hb, hc2⟩ := hcc
          have hfit : c.gasLimit ≤ gl := by assumption
          refine ih (res ++ c.msgs) (gl - c.gasLimit) (fun x hx => hc x (by simp [hx])) ?_ ?_ ?_
          · rw [gasSum_append]
            have := gasSum_nonneg c.msgs ha
            omega
          · omega
          · exact msgsNonneg_append _ _ hnn ha
        · refine ⟨hres, hg, hnn, ?_⟩
          intro r h
          rw [Option.some_inj] at h
          subst h
          exact hc

theorem mergeLoop_inv (B : Int) (l : List MsgChain) : ∀ (res : List SMsg) (gl : Int),
    (∀ c ∈ l, chainInv c) → gasSum res + gl ≤ B → 0 ≤ gl → msgsNonneg res →
    gasSum (mergeLoop l res gl).1 + (mergeLoop l res gl).2.1 ≤ B ∧
    0 ≤ (mergeLoop l res gl).2.1 ∧
    msgsNonneg (mergeLoop l res gl).1 ∧
    (∀ c ∈ (mergeLoop l res gl).2.2, chainInv c) := by
  induction l with
  | nil =>
    intro res gl hc hres hg hnn
    refine ⟨hres, hg, hnn, ?_⟩
    intro c h
    simp [mergeLoop] at h
  | cons c rest ih =>
    intro res gl hc hres hg hnn
    unfold mergeLoop
    split
    · refine ⟨hres, hg, hnn, ?_⟩
      intro x h
      simp at h
    · split
      · have hcc : chainInv c := hc c (by simp)
        obtain ⟨ha, hb, hc2⟩ := hcc
        have hfit : c.gasLimit ≤ gl := by assumption
        refine ih (res ++ c.msgs) (gl - c.gasLimit) (fun x hx => hc x (by simp [hx])) ?_ ?_ ?_
        · rw [gasSum_append]
          have := gasSum_nonneg c.msgs ha
          omega
        · omega
        · exact msgsNonneg_append _ _ hnn ha
      · exact ⟨hres, hg, hnn, hc⟩

theorem tailLoop_inv (B baseFee minGas : Int) (fuel : Nat) : ∀ (l : List MsgChain)
    (res : List SMsg) (gl : Int),
    (∀ c ∈ l, chainInv c) → gasSum res + gl ≤ B → 0 ≤ gl → msgsNonneg res →
    gasSum (tailLoop baseFee minGas fuel l res gl).1 +
      (tailLoop baseFee minGas fuel l res gl).2 ≤ B ∧
    0 ≤ (tailLoop baseFee minGas fuel l res gl).2 ∧
    msgsNonneg (tailLoop baseFee minGas fuel l res gl).1 := by
  induction fuel with
  | zero =>
    intro l res gl hc hres hg hnn
    exact ⟨hres, hg, hnn⟩
  | succ fuel ih =>
    intro l res gl hc hres hg hnn
    cases l with
    | nil => exact ⟨hres, hg, hnn⟩
    | cons c tl =>
      unfold tailLoop
      split
      · have hct := trim_inv c gl baseFee (hc c (by simp))
        have hrest : ∀ x ∈ tailRest (c.trim gl baseFee) tl, chainInv x := by
          intro x hx
          unfold tailRest at hx
          split at hx
          · rcases mem_pushDown _ _ _ hx with h | h
            · rw [h]; exact hct.1
            · exact hc x (by simp [h])
          · rcases List.mem_cons.mp hx with h | h
            · rw [h]; exact hct.1
            · exact hc x (by simp [h])
        have hscan := scanChains_inv B (tailRest (c.trim gl baseFee) tl) res gl
          hrest hres hg hnn
        rcases hsc : scanChains (tailRest (c.trim gl baseFee) tl) res gl with
          ⟨res2, gl2, opt⟩
        rw [hsc] at hscan
        cases opt with
        | none => exact ⟨hscan.1, hscan.2.1, hscan.2.2.1⟩
        | some rest2 =>
          exact ih rest2 res2 gl2 (hscan.2.2.2 rest2 rfl) hscan.1 hscan.2.1 hscan.2.2.1
      · exact ⟨hres, hg, hnn⟩

theorem mem_insertChainDesc (c : MsgChain) (l : List MsgChain) (x : MsgChain)
    (hx : x ∈ insertChainDesc c l) : x = c ∨ x ∈ l := by
  induction l with
  | nil => exact Or.inl (by simpa [insertChainDesc] using hx)
  | cons d rest ih =>
    unfold insertChainDesc at hx
    split at hx
    · rcases List.mem_cons.mp hx with h | h
      · exact Or.inr (by simp [h])
      · rcases ih h with h2 | h2
        · exact Or.inl h2
        · exact Or.inr (by simp [h2])
    · rcases List.mem_cons.mp hx with h | h
      · exact Or.inl h
      · exact Or.inr h

theorem mem_sortChainsDesc (l : List MsgChain) (x : MsgChain)
    (hx : x ∈ sortChainsDesc l) : x ∈ l := by
  induction l with
  | nil => simp [sortChainsDesc] at hx
  | cons c rest ih =>
    have hs : sortChainsDesc (c :: rest) = insertChainDesc c (sortChainsDesc rest) := rfl
    rw [hs] at hx
    rcases mem_insertChainDesc _ _ _ hx with h | h
    · simp [h]
    · simp [ih h]

theorem mergeAndTrimSorted_cons (c0 : MsgChain) (rest : List MsgChain) (res : List SMsg)
    (baseFee gl minGas : Int) :
    mergeAndTrimSorted (c0 :: rest) res baseFee gl minGas =
      if c0.gasPerf < 0 then ([], gl)
      else tailPhase baseFee minGas (mergeLoop (c0 :: rest) res gl) := rfl

theorem mergeAndTrimSorted_inv (B : Int) (sorted : List MsgChain) (res : List SMsg)
    (baseFee gl minGas : Int)
    (hc : ∀ c ∈ sorted, chainInv c) (hres : gasSum res + gl ≤ B) (hg : 0 ≤ gl)
    (hnn : msgsNonneg res) :
    gasSum (mergeAndTrimSorted sorted res baseFee gl minGas).1 +
      (mergeAndTrimSorted sorted res baseFee gl minGas).2 ≤ B ∧
    0 ≤ (mergeAndTrimSorted sorted res baseFee gl minGas).2 ∧
    msgsNonneg (mergeAndTrimSorted sorted res baseFee gl minGas).1 := by
  cases sorted with
  | nil => exact ⟨hres, hg, hnn⟩
  | cons c0 rest =>
    rw [mergeAndTrimSorted_cons]
    split
    · have h0 := gasSum_nonneg res hnn
      refine ⟨?_, hg, ?_⟩
      · show gasSum [] + gl ≤ B
        rw [gasSum_nil]
        omega
      · intro m hm
        simp at hm
    · have hml := mergeLoop_inv B (c0 :: rest) res gl hc hres hg hnn
      unfold tailPhase
      exact tailLoop_inv B baseFee minGas _ _ _ _ hml.2.2.2 hml.1 hml.2.1 hml.2.2.1

theorem mergeAndTrim_inv (B : Int) (chains : List MsgChain) (res : List SMsg)
    (baseFee gl minGas : Int)
    (hc : ∀ c ∈ chains, chainInv c) (hres : gasSum res + gl ≤ B) (hg : 0 ≤ gl)
    (hnn : msgsNonneg res) :
    gasSum (mergeAndTrim chains res baseFee gl minGas).1 +
      (mergeAndTrim chains res baseFee gl minGas).2 ≤ B ∧
    0 ≤ (mergeAndTrim chains res baseFee gl minGas).2 ∧
    msgsNonneg (mergeAndTrim chains res baseFee gl minGas).1 := by
  unfold mergeAndTrim
  exact mergeAndTrimSorted_inv B (sortChainsDesc chains) res baseFee gl minGas
    (fun c h => hc c (mem_sortChainsDesc _ _ h)) hres hg hnn

theorem mkChain_inv (sender : Addr) (baseFee : Int) (msgs : List SMsg)
    (h : msgsNonneg msgs) : chainInv (mkChain sender baseFee msgs) :=
  ⟨h, le_refl _, gasSum_nonneg _ h⟩

theorem cutChains_inv (sender : Addr) (baseFee : Int) : ∀ (l cur : List SMsg),
    msgsNonneg cur → msgsNonneg l →
    ∀ c ∈ cutChains sender baseFee cur l, chainInv c := by
  intro l
  induction l with
  | nil =>
    intro cur hcur _ c hc
    unfold cutChains at hc
    split at hc
    · simp at hc
    · rw [List.mem_singleton.mp hc]
      exact mkChain_inv sender baseFee cur hcur
  | cons m rest ih =>
    intro cur hcur hl c hc
    have hm : 0 ≤ m.gasLimit := hl m (by simp)
    have hrest : msgsNonneg rest := fun x hx => hl x (by simp [hx])
    have hcm : msgsNonneg (cur ++ [m]) :=
      msgsNonneg_append _ _ hcur (fun x hx => by rw [List.mem_singleton.mp hx]; exact hm)
    unfold cutChains at hc
    split at hc
    · exact ih (cur ++ [m]) hcm hrest c hc
    · split at hc
      · rcases List.mem_cons.mp hc with h | h
        · rw [h]; exact mkChain_inv sender baseFee cur hcur
        · exact ih [m] (fun x hx => by rw [List.mem_singleton.mp hx]; exact hm) hrest c h
      · exact ih (cur ++ [m]) hcm hrest c hc

theorem mem_insertBySeq (p : Nat × SMsg) (l : List (Nat × SMsg)) (x : Nat × SMsg)
    (hx : x ∈ insertBySeq p l) : x = p ∨ x ∈ l := by
  induction l with
  | nil => exact Or.inl (by simpa [insertBySeq] using hx)
  | cons q rest ih =>
    unfold insertBySeq at hx
    split at hx
    · rcases List.mem_cons.mp hx with h | h
      · exact Or.inl h
      · exact Or.inr h
    · rcases List.mem_cons.mp hx with h | h
      · exact Or.inr (by simp [h])
      · rcases ih h with h2 | h2
        · exact Or.inl h2
        · exact Or.inr (by simp [h2])

theorem mem_sortBySeq (l : List (Nat × SMsg)) (x : Nat × SMsg)
    (hx : x ∈ sortBySeq l) : x ∈ l := by
  induction l with
  | nil => simp [sortBySeq] at hx
  | cons p rest ih =>
    have hs : sortBySeq (p :: rest) = insertBySeq p (sortBySeq rest) := rfl
    rw [hs] at hx
    rcases mem_insertBySeq _ _ _ hx with h | h
    · simp [h]
    · simp [ih h]

theorem retainedHead_subset : ∀ (seq : Nat) (bal : Int) (l : List SMsg),
    ∀ m ∈ retainedHead seq bal l, m ∈ l := by
  intro seq bal l
  induction l generalizing seq bal with
  | nil => intro m hm; simp [retainedHead] at hm
  | cons x rest ih =>
    intro m hm
    unfold retainedHead at hm
    split at hm
    · rcases List.mem_cons.mp hm with h | h
      · simp [h]
      · simp [ih _ _ m h]
    · simp at hm

theorem createMessageChains_inv (st : ActorChainState) (sender : Addr)
    (mset : List (Nat × SMsg)) (baseFee : Int)
    (h : ∀ p ∈ mset, 0 ≤ (p : Nat × SMsg).2.gasLimit) :
    ∀ c ∈ createMessageChains st sender mset baseFee, chainInv c := by
  intro c hc
  unfold createMessageChains at hc
  refine cutChains_inv sender baseFee _ [] (by intro m hm; simp at hm) ?_ c hc
  intro m hm
  have hm2 := retainedHead_subset st.sequence st.balance _ m hm
  rcases List.mem_map.mp hm2 with ⟨p, hp, hpe⟩
  rw [← hpe]
  exact h p (mem_sortBySeq mset p hp)

theorem mem_msgMapSet (m : MsgMap) (k : Nat) (v : SMsg) (r : Nat × SMsg)
    (hr : r ∈ msgMapSet m k v) : r = (k, v) ∨ r ∈ m := by
  unfold msgMapSet at hr
  split at hr
  · rcases List.mem_map.mp hr with ⟨p, hp, hpe⟩
    by_cases hk : p.1 = k
    · left
      rw [← hpe]
      simp [hk]
    · right
      rw [← hpe]
      simpa [hk] using hp
  · rcases List.mem_append.mp hr with h | h
    · exact Or.inr h
    · exact Or.inl (List.mem_singleton.mp h)

theorem pendingWF_insert (p : PendingMap) (a : Addr) (k : Nat) (v : SMsg)
    (hp : pendingWF p) (hv : 0 ≤ v.gasLimit) : pendingWF (pendingInsert p a k v) := by
  unfold pendingInsert
  split
  · intro q hq r hr
    rcases List.mem_map.mp hq with ⟨q0, hq0, hqe⟩
    by_cases ha : q0.1 = a
    · rw [← hqe] at hr
      simp only [ha, beq_self_eq_true, if_true, ite_true] at hr
      rcases mem_msgMapSet _ _ _ _ hr with h | h
      · rw [h]; exact hv
      · exact hp q0 hq0 r h
    · rw [← hqe] at hr
      have he : (if (q0.1 == a) = true then (a, msgMapSet q0.2 k v) else q0) = q0 := by
        simp [ha]
      rw [he] at hr
      exact hp q0 hq0 r hr
  · intro q hq r hr
    rcases List.mem_append.mp hq with h | h
    · exact hp q h r hr
    · rw [List.mem_singleton.mp h] at hr
      rw [List.mem_singleton.mp hr]
      exact hv

theorem pendingWF_removeKey (p : PendingMap) (a : Addr) (k : Nat)
    (hp : pendingWF p) : pendingWF (pendingRemoveKey p a k) := by
  intro q hq r hr
  unfold pendingRemoveKey at hq
  rcases List.mem_map.mp hq with ⟨q0, hq0, hqe⟩
  by_cases ha : q0.1 = a
  · rw [← hqe] at hr
    simp only [ha, beq_self_eq_true, if_true, ite_true] at hr
    exact hp q0 hq0 r (List.mem_of_mem_filter hr)
  · rw [← hqe] at hr
    have he : (if (q0.1 == a) = true then (a, msgMapRemove q0.2 k) else q0) = q0 := by
      simp [ha]
    rw [he] at hr
    exact hp q0 hq0 r hr

theorem pendingWF_removeActor (p : PendingMap) (a : Addr)
    (hp : pendingWF p) : pendingWF (pendingRemoveActor p a) := by
  intro q hq r hr
  exact hp q (List.mem_of_mem_filter hq) r hr

theorem pendingWF_addToSelected (m : SMsg) (r : PendingMap)
    (hr : pendingWF r) (hm : 0 ≤ m.gasLimit) : pendingWF (addToSelectedMsgs m r) :=
  pendingWF_insert r m.sender m.sequence m hr hm

theorem foldl_pendingWF {α : Type} (f : PendingMap → α → PendingMap) (l : List α)
    (hf : ∀ q a, a ∈ l → pendingWF q → pendingWF (f q a)) :
    ∀ p, pendingWF p → pendingWF (l.foldl f p) := by
  induction l with
  | nil => intro p hp; exact hp
  | cons x rest ih =>
    intro p hp
    exact ih (fun q a ha hq => hf q a (by simp [ha]) hq) (f p x)
      (hf p x (by simp) hp)

theorem foldl_pairWF {α : Type} (f : PendingMap × PendingMap → α → PendingMap × PendingMap)
    (l : List α)
    (hf : ∀ q a, a ∈ l → pendingWF q.1 → pendingWF q.2 →
      pendingWF (f q a).1 ∧ pendingWF (f q a).2) :
    ∀ p, pendingWF p.1 → pendingWF p.2 →
      pendingWF (l.foldl f p).1 ∧ pendingWF (l.foldl f p).2 := by
  induction l with
  | nil => intro p h1 h2; exact ⟨h1, h2⟩
  | cons x rest ih =>
    intro p h1 h2
    have hx := hf p x (by simp) h1 h2
    exact ih (fun q a ha hq1 hq2 => hf q a (by simp [ha]) hq1 hq2) (f p x) hx.1 hx.2

theorem applyLeftChain_WF (api : Provider) (lc : List Tipset) (rmsgs : PendingMap)
    (hapi : providerWF api) (hr : pendingWF rmsgs) :
    pendingWF (applyLeftChain api lc rmsgs) := by
  unfold applyLeftChain
  refine foldl_pendingWF _ _ ?_ rmsgs hr
  intro q ts _ hq
  refine foldl_pendingWF _ _ ?_ q hq
  intro q2 b _ hq2
  refine foldl_pendingWF _ _ ?_ q2 hq2
  intro q3 m hm hq3
  exact pendingWF_addToSelected m q3 hq3 (hapi b m hm)

theorem removeMsgsSecp_WF (api : Provider) (b : Block) (pr : PendingMap × PendingMap)
    (h1 : pendingWF pr.1) (h2 : pendingWF pr.2) :
    pendingWF (removeMsgsSecp api b pr).1 ∧ pendingWF (removeMsgsSecp api b pr).2 := by
  unfold removeMsgsSecp
  refine foldl_pairWF _ _ ?_ pr h1 h2
  intro q m _ hq1 hq2
  exact ⟨pendingWF_removeKey _ _ _ hq1, pendingWF_removeKey _ _ _ hq2⟩

theorem removeMsgsBls_WF (api : Provider) (b : Block) (pr : PendingMap × PendingMap)
    (h1 : pendingWF pr.1) (h2 : pendingWF pr.2) :
    pendingWF (removeMsgsBls api b pr).1 ∧ pendingWF (removeMsgsBls api b pr).2 := by
  unfold removeMsgsBls
  refine foldl_pairWF _ _ ?_ pr h1 h2
  intro q m _ hq1 hq2
  exact ⟨pendingWF_removeKey _ _ _ hq1, pendingWF_removeKey _ _ _ hq2⟩

theorem applyRightChain_WF (api : Provider) (rc : List Tipset) (live rmsgs : PendingMap)
    (hl : pendingWF live) (hr : pendingWF rmsgs) :
    pendingWF (applyRightChain api rc live rmsgs).1 ∧
    pendingWF (applyRightChain api rc live rmsgs).2 := by
  unfold applyRightChain
  refine foldl_pairWF _ _ ?_ (live, rmsgs) hl hr
  intro q ts _ h1 h2
  refine foldl_pairWF _ _ ?_ q h1 h2
  intro q2 b _ h21 h22
  have hsecp := removeMsgsSecp_WF api b q2 h21 h22
  exact removeMsgsBls_WF api b _ hsecp.1 hsecp.2

theorem runHeadChange_WF (api : Provider) (fuel : Nat) (live : PendingMap)
    (src dst : Tipset) (rmsgs : PendingMap) (hapi : providerWF api)
    (hl : pendingWF live) (hr : pendingWF rmsgs) :
    ∀ out, runHeadChange api fuel live src dst rmsgs = some out →
      pendingWF out.1 ∧ pendingWF out.2 := by
  intro out h
  unfold runHeadChange at h
  cases hw : walkChains api fuel src dst with
  | none => rw [hw] at h; simp at h
  | some lr =>
    rw [hw] at h
    rw [Option.some_inj] at h
    rw [← h]
    exact applyRightChain_WF api lr.2 live (applyLeftChain api lr.1 rmsgs) hl
      (applyLeftChain_WF api lr.1 rmsgs hapi hr)

theorem getPendingMessages_WF (api : Provider) (fuel : Nat) (live : PendingMap)
    (curTs targetTs : Tipset) (hapi : providerWF api) (hl : pendingWF live) :
    ∀ out, getPendingMessages api fuel live curTs targetTs = some out →
      pendingWF out.1 ∧ pendingWF out.2 := by
  intro out h
  unfold getPendingMessages at h
  split at h
  · rw [Option.some_inj] at h
    rw [← h]
    exact ⟨hl, hl⟩
  · exact runHeadChange_WF api fuel live curTs targetTs live hapi hl hl out h

theorem pendingLookup_mem (p : PendingMap) (a : Addr) (m : MsgMap)
    (h : pendingLookup p a = some m) : ∃ q ∈ p, q.2 = m := by
  unfold pendingLookup at h
  cases hf : p.find? (fun q => q.1 == a) with
  | none => rw [hf] at h; simp at h
  | some q =>
    rw [hf] at h
    have h2 : q.2 = m := by simpa using h
    exact ⟨q, List.mem_of_find?_eq_some hf, h2⟩

theorem priorityFold_inv (api : Provider) (baseFee : Int) (addrs : List Addr) :
    ∀ acc : PendingMap × List MsgChain, pendingWF acc.1 → (∀ c ∈ acc.2, chainInv c) →
    pendingWF (addrs.foldl (priorityStep api baseFee) acc).1 ∧
    (∀ c ∈ (addrs.foldl (priorityStep api baseFee) acc).2, chainInv c) := by
  induction addrs with
  | nil => intro acc h1 h2; exact ⟨h1, h2⟩
  | cons a rest ih =>
    intro acc h1 h2
    refine ih (priorityStep api baseFee acc a) ?_ ?_
    · unfold priorityStep
      cases hl : pendingLookup acc.1 a with
      | some mset => exact pendingWF_removeActor _ _ h1
      | none => exact h1
    · unfold priorityStep
      cases hl : pendingLookup acc.1 a with
      | some mset =>
        intro c hc
        rcases List.mem_append.mp hc with h | h
        · exact h2 c h
        · obtain ⟨q, hq, hqe⟩ := pendingLookup_mem acc.1 a mset hl
          have hmem : ∀ r ∈ mset, 0 ≤ (r : Nat × SMsg).2.gasLimit := by
            intro r hr
            rw [← hqe] at hr
            exact h1 q hq r hr
          exact createMessageChains_inv _ _ _ _ hmem c h
      | none => exact h2

theorem selectPriorityMessages_inv (api : Provider) (cfg : MpoolConfig)
    (pending : PendingMap) (baseFee : Int) (hw : pendingWF pending) :
    pendingWF (selectPriorityMessages api cfg pending baseFee).1 ∧
    gasSum (selectPriorityMessages api cfg pending baseFee).2.1 +
      (selectPriorityMessages api cfg pending baseFee).2.2 ≤ BLOCK_GAS_LIMIT ∧
    0 ≤ (selectPriorityMessages api cfg pending baseFee).2.2 ∧
    msgsNonneg (selectPriorityMessages api cfg pending baseFee).2.1 := by
  unfold selectPriorityMessages
  have hfold := priorityFold_inv api baseFee cfg.priorityAddrs (pending, []) hw
    (fun c hc => absurd hc (by simp))
  unfold priorityFinish
  split
  · dsimp only
    refine ⟨hfold.1, ?_, ?_, ?_⟩
    · rw [gasSum_nil]; omega
    · unfold BLOCK_GAS_LIMIT; omega
    · intro m hm; simp at hm
  · dsimp only
    have hB : (0 : Int) ≤ BLOCK_GAS_LIMIT := by unfold BLOCK_GAS_LIMIT; omega
    have hmt := mergeAndTrim_inv BLOCK_GAS_LIMIT _ [] baseFee BLOCK_GAS_LIMIT MIN_GAS
      hfold.2 (by rw [gasSum_nil]; omega) hB (fun m hm => absurd hm (by simp))
    exact ⟨hfold.1, hmt.1, hmt.2.1, hmt.2.2⟩

theorem buildFold_inv (api : Provider) (baseFee : Int) (l : PendingMap)
    (hl : pendingWF l) : ∀ acc, (∀ c ∈ acc, chainInv c) →
    ∀ c ∈ l.foldl
      (fun acc p => acc ++ createMessageChains (api.actorState p.1) p.1 p.2 baseFee) acc,
      chainInv c := by
  induction l with
  | nil => intro acc hacc c hc; exact hacc c hc
  | cons p rest ih =>
    intro acc hacc c hc
    refine ih (fun q hq r hr => hl q (by simp [hq]) r hr) _ ?_ c hc
    intro c2 hc2
    rcases List.mem_append.mp hc2 with h | h
    · exact hacc c2 h
    · exact createMessageChains_inv _ _ _ _ (fun r hr => hl p (by simp) r hr) c2 h

theorem buildRemainingChains_inv (api : Provider) (pending : PendingMap) (baseFee : Int)
    (hw : pendingWF pending) : ∀ c ∈ buildRemainingChains api pending baseFee, chainInv c := by
  unfold buildRemainingChains
  exact buildFold_inv api baseFee pending hw [] (by intro c hc; simp at hc)

theorem greedyPack_inv (api : Provider) (baseFee : Int) (pri : PendingMap × List SMsg × Int)
    (msgs : List SMsg)
    (hw : pendingWF pri.1) (hres : gasSum pri.2.1 + pri.2.2 ≤ BLOCK_GAS_LIMIT)
    (hg : 0 ≤ pri.2.2) (hnn : msgsNonneg pri.2.1)
    (h : greedyPack api baseFee pri = .ok msgs) :
    gasSum msgs ≤ BLOCK_GAS_LIMIT ∧ msgsNonneg msgs := by
  unfold greedyPack at h
  split at h
  · rw [Except.ok.injEq] at h
    rw [← h]
    have := gasSum_nonneg pri.2.1 hnn
    exact ⟨by omega, hnn⟩
  · rw [Except.ok.injEq] at h
    rw [← h]
    have hmt := mergeAndTrim_inv BLOCK_GAS_LIMIT (buildRemainingChains api pri.1 baseFee)
      pri.2.1 baseFee pri.2.2 MIN_GAS (buildRemainingChains_inv api pri.1 baseFee hw)
      hres hg hnn
    have h2 := hmt.2.1
    exact ⟨by omega, hmt.2.2⟩

theorem selectMessagesGreedy_inv (api : Provider) (cfg : MpoolConfig) (fuel : Nat)
    (live : PendingMap) (curTs ts : Tipset) (msgs : List SMsg)
    (hapi : providerWF api) (hlive : pendingWF live)
    (h : selectMessagesGreedy api cfg fuel live curTs ts = .ok msgs) :
    gasSum msgs ≤ BLOCK_GAS_LIMIT ∧ msgsNonneg msgs := by
  unfold selectMessagesGreedy at h
  cases hgp : getPendingMessages api fuel live curTs ts with
  | none => rw [hgp] at h; simp at h
  | some out =>
    obtain ⟨live2, pending⟩ := out
    have hwf := (getPendingMessages_WF api fuel live curTs ts hapi hlive _ hgp).2
    rw [hgp] at h
    simp only [] at h
    split at h
    · rw [Except.ok.injEq] at h
      rw [← h]
      refine ⟨?_, by intro m hm; simp at hm⟩
      rw [gasSum_nil]
      unfold BLOCK_GAS_LIMIT
      omega
    · have hpri := selectPriorityMessages_inv api cfg pending (api.baseFee ts) hwf
      exact greedyPack_inv api (api.baseFee ts) _ msgs hpri.1 hpri.2.1 hpri.2.2.1
        hpri.2.2.2 h

theorem selectMessagesOptimal_inv (api : Provider) (cfg : MpoolConfig) (fuel : Nat)
    (live : PendingMap) (curTs ts : Tipset) (tq : Rat) (msgs : List SMsg)
    (hapi : providerWF api) (hlive : pendingWF live)
    (h : selectMessagesOptimal api cfg fuel live curTs ts tq = .ok msgs) :
    gasSum msgs ≤ BLOCK_GAS_LIMIT ∧ msgsNonneg msgs := by
  unfold selectMessagesOptimal at h
  cases hgp : getPendingMessages api fuel live curTs ts with
  | none => rw [hgp] at h; simp at h
  | some out =>
    obtain ⟨live2, pending⟩ := out
    have hwf := (getPendingMessages_WF api fuel live curTs ts hapi hlive _ hgp).2
    rw [hgp] at h
    simp only [] at h
    split at h
    · rw [Except.ok.injEq] at h
      rw [← h]
      refine ⟨?_, by intro m hm; simp at hm⟩
      rw [gasSum_nil]
      unfold BLOCK_GAS_LIMIT
      omega
    · have hpri := selectPriorityMessages_inv api cfg pending (api.baseFee ts) hwf
      unfold optimalTail at h
      split at h
      · rw [Except.ok.injEq] at h
        rw [← h]
        have h1 := hpri.2.1
        have h2 := hpri.2.2.1
        have := gasSum_nonneg _ hpri.2.2.2
        exact ⟨by omega, hpri.2.2.2⟩
      · simp at h

theorem except_map_eq_ok {α β : Type} (f : α → β) (x : Except Error α) (b : β)
    (h : x.map f = .ok b) : ∃ a, x = .ok a ∧ b = f a := by
  cases x with
  | ok a =>
    refine ⟨a, rfl, ?_⟩
    rw [except_map_ok] at h
    rw [Except.ok.injEq] at h
    exact h.symm
  | error e => simp at h

theorem gasSum_take_le (n : Nat) (l : List SMsg) (h : msgsNonneg l) :
    gasSum (l.take n) ≤ gasSum l := by
  conv_rhs => rw [← List.take_append_drop n l]
  rw [gasSum_append]
  have := gasSum_nonneg (l.drop n)
    (fun m hm => h m (List.mem_of_mem_drop hm))
  omega

/-- C2: every selection returned by `select_messages` — over any provider
and pending map whose messages carry nonnegative gas limits — has total gas
limit at most `BLOCK_GAS_LIMIT` and at most `MAX_BLOCK_MSGS` (16000)
messages. -/
theorem selectMessages_respects_block_limits (api : Provider) (cfg : MpoolConfig)
    (fuel : Nat) (live : PendingMap) (curTs ts : Tipset) (tq : Rat) (msgs : List SMsg)
    (hapi : providerWF api) (hlive : pendingWF live)
    (h : selectMessages api cfg fuel live curTs ts tq = .ok msgs) :
    gasSum msgs ≤ BLOCK_GAS_LIMIT ∧ msgs.length ≤ MAX_BLOCK_MSGS := by
  unfold selectMessages at h
  obtain ⟨msgs0, h0, hme⟩ := except_map_eq_ok _ _ _ h
  have hinv : gasSum msgs0 ≤ BLOCK_GAS_LIMIT ∧ msgsNonneg msgs0 := by
    split at h0
    · exact selectMessagesGreedy_inv api cfg fuel live curTs ts msgs0 hapi hlive h0
    · exact selectMessagesOptimal_inv api cfg fuel live curTs ts tq msgs0 hapi hlive h0
  rw [hme]
  constructor
  · exact le_trans (gasSum_take_le _ _ hinv.2) hinv.1
  · exact List.length_take_le _ _

/-- Witness for C2: the bound instantiated at a one-message pool whose
greedy selection returns `[mA]`. -/
theorem selectMessages_respects_block_limits_witness :
    gasSum [mA] ≤ BLOCK_GAS_LIMIT ∧ [mA].length ≤ MAX_BLOCK_MSGS :=
  selectMessages_respects_block_limits apiA cfgEmpty 5 liveA1 tsA tsA 1 [mA]
    (fun b m hm => absurd hm (List.not_mem_nil m))
    (by unfold pendingWF; decide)
    (by with_unfolding_all rfl)

/-- C9: in the greedy path, when the remaining senders produce a non-empty
chain list whose top sorted chain has negative gas performance,
`select_messages_greedy` returns the empty selection — `merge_and_trim`
drops the priority messages already accumulated in its `result` argument and
returns an empty vector instead. -/
theorem selectMessagesGreedy_negative_top_discards (api : Provider) (cfg : MpoolConfig)
    (fuel : Nat) (live : PendingMap) (curTs ts : Tipset) (live2 pending : PendingMap)
    (pri : PendingMap × List SMsg × Int) (c0 : MsgChain) (cs : List MsgChain)
    (hgp : getPendingMessages api fuel live curTs ts = some (live2, pending))
    (hne : pending.isEmpty = false)
    (hpri : selectPriorityMessages api cfg pending (api.baseFee ts) = pri)
    (hgl : ¬ pri.2.2 < MIN_GAS)
    (hsort : sortChainsDesc (buildRemainingChains api pri.1 (api.baseFee ts)) = c0 :: cs)
    (hneg : c0.gasPerf < 0) :
    selectMessagesGreedy api cfg fuel live curTs ts = .ok [] := by
  unfold selectMessagesGreedy
  rw [hgp]
  simp only [hne, Bool.false_eq_true, if_false, ite_false]
  rw [hpri]
  unfold greedyPack
  rw [if_neg hgl]
  unfold mergeAndTrim
  rw [hsort, mergeAndTrimSorted_cons, if_pos hneg]

/-- Witness for C9: priority sender 1 contributes `mA` (the priority stage
returns a non-empty selection), sender 2's only chain performs negatively,
and the greedy selection comes back empty. -/
theorem selectMessagesGreedy_negative_top_discards_witness :
    selectPriorityMessages apiA cfgA liveA 10 =
      ([(2, [(0, mB)])], [mA], BLOCK_GAS_LIMIT - 100) ∧
    selectMessagesGreedy apiA cfgA 5 liveA tsA tsA = .ok [] :=
  ⟨by with_unfolding_all rfl,
   selectMessagesGreedy_negative_top_discards apiA cfgA 5 liveA tsA tsA liveA liveA
     ([(2, [(0, mB)])], [mA], BLOCK_GAS_LIMIT - 100) cB []
     rfl rfl (by with_unfolding_all rfl) (by decide)
     (by with_unfolding_all rfl) (by with_unfolding_all decide)⟩

/-- C1: with ticket quality at most 0.84, a non-empty pending snapshot and
residual gas at least `MIN_GAS` after the priority stage, `select_messages`
takes the optimal path and aborts with `unimplemented` (selection.rs line
176) instead of packing the re-sorted chains with `merge_and_trim` and
returning the selection as the claim describes. -/
theorem selectMessages_lowtq_errors_unimplemented (api : Provider) (cfg : MpoolConfig)
    (fuel : Nat) (live : PendingMap) (curTs ts : Tipset) (tq : Rat)
    (live2 pending : PendingMap)
    (htq : ¬ tq > (84 : Rat) / 100)
    (hgp : getPendingMessages api fuel live curTs ts = some (live2, pending))
    (hne : pending.isEmpty = false)
    (hgl : ¬ (selectPriorityMessages api cfg pending (api.baseFee ts)).2.2 < MIN_GAS) :
    selectMessages api cfg fuel live curTs ts tq = .error .unimplemented := by
  unfold selectMessages
  rw [if_neg htq]
  unfold selectMessagesOptimal
  rw [hgp]
  simp only [hne, Bool.false_eq_true, if_false, ite_false]
  unfold optimalTail
  rw [if_neg hgl]
  rfl

/-- Witness for C1: a concrete one-sender pool at ticket quality 1/2
reaches the unimplemented stub. -/
theorem selectMessages_lowtq_errors_unimplemented_witness :
    selectMessages apiA cfgEmpty 5 liveA1 tsA tsA (1 / 2) = .error .unimplemented :=
  selectMessages_lowtq_errors_unimplemented apiA cfgEmpty 5 liveA1 tsA tsA (1 / 2)
    liveA1 liveA1 (by norm_num) rfl rfl (by decide)

theorem findMapSetSelf (m : MsgMap) (k : Nat) (v : SMsg)
    (hany : m.any (fun p => p.1 == k) = true) :
    ((m.map (fun p => if p.1 == k then (k, v) else p)).find?
      (fun q => q.1 == k)).map Prod.snd = some v := by
  induction m with
  | nil => simp at hany
  | cons p rest ih =>
    by_cases hp : p.1 = k
    · have e1 : (if (p.1 == k) = true then (k, v) else p) = (k, v) := by simp [hp]
      simp only [List.map_cons, e1]
      rw [List.find?_cons_of_pos]
      · rfl
      · simp
    · have e1 : (if (p.1 == k) = true then (k, v) else p) = p := by simp [hp]
      simp only [List.map_cons, e1]
      rw [List.find?_cons_of_neg]
      · refine ih ?_
        simp only [List.any_cons, hp] at hany
        simpa [hp] using hany
      · simp [hp]

theorem findMapSetNe (m : MsgMap) (k k' : Nat) (v : SMsg) (h : k ≠ k') :
    ((m.map (fun p => if p.1 == k then (k, v) else p)).find?
      (fun q => q.1 == k')).map Prod.snd =
    (m.find? (fun q => q.1 == k')).map Prod.snd := by
  induction m with
  | nil => rfl
  | cons p rest ih =>
    by_cases hp : p.1 = k
    · have e1 : (if (p.1 == k) = true then (k, v) else p) = (k, v) := by simp [hp]
      simp only [List.map_cons, e1]
      rw [List.find?_cons_of_neg, List.find?_cons_of_neg]
      · exact ih
      · simp [hp, h]
      · simp [h]
    · have e1 : (if (p.1 == k) = true then (k, v) else p) = p := by simp [hp]
      simp only [List.map_cons, e1]
      by_cases hk : p.1 = k'
      · rw [List.find?_cons_of_pos, List.find?_cons_of_pos] <;> simp [hk]
      · rw [List.find?_cons_of_neg, List.find?_cons_of_neg]
        · exact ih
        · simp [hk]
        · simp [hk]

theorem msgMapGet_set_self (m : MsgMap) (k : Nat) (v : SMsg) :
    msgMapGet (msgMapSet m k v) k = some v := by
  unfold msgMapSet
  split
  · rename_i hany
    exact findMapSetSelf m k v hany
  · rename_i hany
    unfold msgMapGet
    rw [List.find?_append]
    have hnone : m.find? (fun q => q.1 == k) = none := by
      rw [List.find?_eq_none]
      intro x hx hc
      exact hany (List.any_eq_true.mpr ⟨x, hx, hc⟩)
    rw [hnone]
    simp

theorem msgMapGet_set_other (m : MsgMap) (k k' : Nat) (v : SMsg) (h : k ≠ k') :
    msgMapGet (msgMapSet m k v) k' = msgMapGet m k' := by
  unfold msgMapSet
  split
  · exact findMapSetNe m k k' v h
  · unfold msgMapGet
    rw [List.find?_append]
    have h1 : ([(k, v)] : MsgMap).find? (fun q => q.1 == k') = none := by
      rw [List.find?_eq_none]
      intro x hx
      rw [List.mem_singleton.mp hx]
      simp [h]
    rw [h1]
    cases hf : m.find? (fun q => q.1 == k') <;> simp

theorem msgMapGet_remove_self (m : MsgMap) (k : Nat) :
    msgMapGet (msgMapRemove m k) k = none := by
  unfold msgMapGet msgMapRemove
  have h1 : (m.filter (fun p => p.1 != k)).find? (fun q => q.1 == k) = none := by
    rw [List.find?_eq_none]
    intro x hx
    have := List.of_mem_filter hx
    simpa using this
  rw [h1]
  rfl

theorem msgMapGet_remove_other (m : MsgMap) (k k' : Nat) (h : k ≠ k') :
    msgMapGet (msgMapRemove m k) k' = msgMapGet m k' := by
  unfold msgMapGet msgMapRemove
  induction m with
  | nil => rfl
  | cons p rest ih =>
    by_cases hp : p.1 = k
    · rw [List.filter_cons_of_neg, List.find?_cons_of_neg]
      · exact ih
      · simp [hp, h]
      · simp [hp]
    · rw [List.filter_cons_of_pos]
      · by_cases hk : p.1 = k'
        · rw [List.find?_cons_of_pos, List.find?_cons_of_pos] <;> simp [hk]
        · rw [List.find?_cons_of_neg, List.find?_cons_of_neg]
          · exact ih
          · simp [hk]
          · simp [hk]
      · simp [hp]

theorem pendingLookup_mapKeyed (p : PendingMap) (a a' : Addr) (f : MsgMap → MsgMap) :
    pendingLookup (p.map (fun q => if q.1 == a then (a, f q.2) else q)) a' =
      if a' = a then (pendingLookup p a').map f else pendingLookup p a' := by
  induction p with
  | nil => split <;> rfl
  | cons q rest ih =>
    by_cases hq : q.1 = a
    · have e1 : (if (q.1 == a) = true then (a, f q.2) else q) = (a, f q.2) := by simp [hq]
      unfold pendingLookup
      simp only [List.map_cons, e1]
      by_cases ha : a' = a
      · rw [List.find?_cons_of_pos, List.find?_cons_of_pos]
        · simp [ha]
        · simp [hq, ha]
        · simp [ha]
      · rw [List.find?_cons_of_neg, List.find?_cons_of_neg]
        · have h2 := ih
          unfold pendingLookup at h2
          rw [h2]
        · simp only [beq_iff_eq, hq]
          exact fun hc => ha hc.symm
        · simp only [beq_iff_eq]
          exact fun hc => ha hc.symm
    · have e1 : (if (q.1 == a) = true then (a, f q.2) else q) = q := by simp [hq]
      unfold pendingLookup
      simp only [List.map_cons, e1]
      by_cases hk : q.1 = a'
      · rw [List.find?_cons_of_pos, List.find?_cons_of_pos]
        · have hne : ¬ a' = a := by rw [← hk]; exact hq
          simp [hne]
        · simp [hk]
        · simp [hk]
      · rw [List.find?_cons_of_neg, List.find?_cons_of_neg]
        · have h2 := ih
          unfold pendingLookup at h2
          rw [h2]
        · simp [hk]
        · simp [hk]

theorem pendingLookup_eq_none (p : PendingMap) (a : Addr)
    (h : ¬ (pendingLookup p a).isSome = true) :
    p.find? (fun q => q.1 == a) = none := by
  unfold pendingLookup at h
  cases hf : p.find? (fun q => q.1 == a) with
  | none => rfl
  | some q => rw [hf] at h; simp at h

theorem pendingLookup_insert (p : PendingMap) (a : Addr) (k : Nat) (v : SMsg) (a' : Addr) :
    pendingLookup (pendingInsert p a k v) a' =
      if a' = a then
        some (match pendingLookup p a with
              | some m => msgMapSet m k v
              | none => [(k, v)])
      else pendingLookup p a' := by
  unfold pendingInsert
  split
  · rename_i hsome
    rw [pendingLookup_mapKeyed p a a' (fun m => msgMapSet m k v)]
    by_cases ha : a' = a
    · cases hl : pendingLookup p a with
      | none => rw [hl] at hsome; simp at hsome
      | some m => simp [ha, hl]
    · simp [ha]
  · rename_i hnone
    have h1 : p.find? (fun q => q.1 == a) = none := pendingLookup_eq_none p a hnone
    have h0 : pendingLookup p a = none := by
      unfold pendingLookup
      rw [h1]
      rfl
    unfold pendingLookup
    rw [List.find?_append]
    by_cases ha : a' = a
    · rw [ha, h1]
      have h2 : List.find? (fun q => q.1 == a) [(a, [(k, v)])] = some (a, [(k, v)]) := by
        rw [List.find?_cons_of_pos]
        simp
      rw [Option.none_or, h2]
      simp [h0]
    · have h2 : List.find? (fun q => q.1 == a') [(a, [(k, v)])] = none := by
        rw [List.find?_cons_of_neg]
        · rfl
        · simp only [beq_iff_eq]
          exact fun hc => ha hc.symm
      rw [h2]
      simp only [ha, if_false, ite_false]
      cases hf : p.find? (fun q => q.1 == a') <;> rfl

theorem msgMapGet_singleton_self (k : Nat) (v : SMsg) : msgMapGet [(k, v)] k = some v := by
  unfold msgMapGet
  rw [List.find?_cons_of_pos] <;> simp

theorem msgMapGet_singleton_other (k k' : Nat) (v : SMsg) (h : ¬ k' = k) :
    msgMapGet [(k, v)] k' = none := by
  unfold msgMapGet
  rw [List.find?_cons_of_neg]
  · rfl
  · simp only [beq_iff_eq]
    exact fun hc => h hc.symm

theorem pendingGet_insert (p : PendingMap) (a : Addr) (k : Nat) (v : SMsg)
    (a' : Addr) (k' : Nat) :
    pendingGet (pendingInsert p a k v) a' k' =
      if a' = a ∧ k' = k then some v else pendingGet p a' k' := by
  unfold pendingGet
  rw [pendingLookup_insert]
  by_cases ha : a' = a
  · simp only [ha, if_true, ite_true, and_true, true_and]
    cases hl : pendingLookup p a with
    | none =>
      by_cases hk : k' = k
      · simp [hk, msgMapGet_singleton_self]
      · simp [hk, msgMapGet_singleton_other k k' v hk, ha, hl]
    | some m =>
      by_cases hk : k' = k
      · simp only [hk, if_true, ite_true]
        exact msgMapGet_set_self m k v
      · simp only [hk, if_false, ite_false, ha, hl]
        exact msgMapGet_set_other m k k' v (fun hc => hk hc.symm)
  · simp [ha]

theorem pendingGet_removeKey (p : PendingMap) (a : Addr) (k : Nat) (a' : Addr) (k' : Nat) :
    pendingGet (pendingRemoveKey p a k) a' k' =
      if a' = a ∧ k' = k then none else pendingGet p a' k' := by
  unfold pendingRemoveKey pendingGet
  rw [pendingLookup_mapKeyed p a a' (fun m => msgMapRemove m k)]
  by_cases ha : a' = a
  · simp only [ha, if_true, ite_true, true_and]
    cases hl : pendingLookup p a with
    | none =>
      simp only [Option.map_none']
      split <;> rfl
    | some m =>
      simp only [Option.map_some']
      by_cases hk : k' = k
      · simp only [hk, if_true, ite_true]
        exact msgMapGet_remove_self m k
      · simp only [hk, if_false, ite_false, hl]
        exact msgMapGet_remove_other m k k' (fun hc => hk hc.symm)
  · simp [ha]

theorem pendingGet_insert_keeps_isSome (p : PendingMap) (a : Addr) (k : Nat) (v : SMsg)
    (a' : Addr) (k' : Nat) (h : (pendingGet p a' k').isSome) :
    (pendingGet (pendingInsert p a k v) a' k').isSome := by
  rw [pendingGet_insert]
  split
  · simp
  · exact h

theorem foldAdd_isSome (msgs : List SMsg) : ∀ (r : PendingMap) (a : Addr) (k : Nat),
    ((∃ m ∈ msgs, m.sender = a ∧ m.sequence = k) ∨ (pendingGet r a k).isSome) →
    (pendingGet (msgs.foldl (fun r m => addToSelectedMsgs m r) r) a k).isSome := by
  induction msgs with
  | nil =>
    rintro r a k (⟨m, hm, _⟩ | h)
    · simp at hm
    · exact h
  | cons m rest ih =>
    rintro r a k (⟨m2, hm2, he⟩ | h)
    · rw [List.foldl_cons]
      rcases List.mem_cons.mp hm2 with h2 | h2
      · refine ih _ a k (Or.inr ?_)
        subst h2
        unfold addToSelectedMsgs
        rw [pendingGet_insert]
        rw [if_pos ⟨he.1.symm, he.2.symm⟩]
        simp
      · exact ih _ a k (Or.inl ⟨m2, h2, he⟩)
    · rw [List.foldl_cons]
      refine ih _ a k (Or.inr ?_)
      unfold addToSelectedMsgs
      exact pendingGet_insert_keeps_isSome r m.sender m.sequence m a k h

theorem blocksAdd_isSome (api : Provider) (bs : List Block) : ∀ (r : PendingMap)
    (a : Addr) (k : Nat),
    ((∃ b ∈ bs, ∃ m ∈ (api.messagesForBlock b).2, m.sender = a ∧ m.sequence = k) ∨
      (pendingGet r a k).isSome) →
    (pendingGet (bs.foldl
      (fun r b => ((api.messagesForBlock b).2).foldl (fun r m => addToSelectedMsgs m r) r)
      r) a k).isSome := by
  induction bs with
  | nil =>
    rintro r a k (⟨b, hb, _⟩ | h)
    · simp at hb
    · exact h
  | cons b rest ih =>
    rintro r a k (⟨b2, hb2, hm⟩ | h)
    · rw [List.foldl_cons]
      rcases List.mem_cons.mp hb2 with h2 | h2
      · refine ih _ a k (Or.inr ?_)
        subst h2
        exact foldAdd_isSome _ r a k (Or.inl hm)
      · exact ih _ a k (Or.inl ⟨b2, h2, hm⟩)
    · rw [List.foldl_cons]
      exact ih _ a k (Or.inr (foldAdd_isSome _ r a k (Or.inr h)))

theorem applyLeftChain_isSome (api : Provider) (lc : List Tipset) : ∀ (r : PendingMap)
    (a : Addr) (k : Nat),
    ((∃ ts ∈ lc, ∃ b ∈ ts.blocks, ∃ m ∈ (api.messagesForBlock b).2,
        m.sender = a ∧ m.sequence = k) ∨
      (pendingGet r a k).isSome) →
    (pendingGet (applyLeftChain api lc r) a k).isSome := by
  induction lc with
  | nil =>
    rintro r a k (⟨ts, hts, _⟩ | h)
    · simp at hts
    · exact h
  | cons ts rest ih =>
    rintro r a k (⟨ts2, hts2, hb⟩ | h)
    · unfold applyLeftChain
      rw [List.foldl_cons]
      rcases List.mem_cons.mp hts2 with h2 | h2
      · refine ih _ a k (Or.inr ?_)
        subst h2
        exact blocksAdd_isSome api _ r a k (Or.inl hb)
      · exact ih _ a k (Or.inl ⟨ts2, h2, hb⟩)
    · unfold applyLeftChain
      rw [List.foldl_cons]
      exact ih _ a k (Or.inr (blocksAdd_isSome api _ r a k (Or.inr h)))

theorem pendingGet_removeKey_keeps_none (p : PendingMap) (a : Addr) (k : Nat)
    (a' : Addr) (k' : Nat) (h : pendingGet p a' k' = none) :
    pendingGet (pendingRemoveKey p a k) a' k' = none := by
  rw [pendingGet_removeKey]
  split
  · rfl
  · exact h

theorem bothNone_step (pr : PendingMap × PendingMap) (a k a' k')
    (h : pendingGet pr.1 a' k' = none ∧ pendingGet pr.2 a' k' = none) :
    pendingGet (removeFromSelectedMsgs a k pr.1 pr.2).1 a' k' = none ∧
    pendingGet (removeFromSelectedMsgs a k pr.1 pr.2).2 a' k' = none := by
  unfold removeFromSelectedMsgs
  exact ⟨pendingGet_removeKey_keeps_none _ _ _ _ _ h.1,
         pendingGet_removeKey_keeps_none _ _ _ _ _ h.2⟩

theorem bothNone_self (pr : PendingMap × PendingMap) (a k) :
    pendingGet (removeFromSelectedMsgs a k pr.1 pr.2).1 a k = none ∧
    pendingGet (removeFromSelectedMsgs a k pr.1 pr.2).2 a k = none := by
  unfold removeFromSelectedMsgs
  constructor <;> · rw [pendingGet_removeKey]; simp

theorem secpRemove_none (msgs : List SMsg) : ∀ (pr : PendingMap × PendingMap)
    (a : Addr) (k : Nat),
    ((∃ m ∈ msgs, m.sender = a ∧ m.sequence = k) ∨
      (pendingGet pr.1 a k = none ∧ pendingGet pr.2 a k = none)) →
    pendingGet ((msgs.foldl
        (fun pr m => removeFromSelectedMsgs m.sender m.sequence pr.1 pr.2) pr)).1 a k = none ∧
    pendingGet ((msgs.foldl
        (fun pr m => removeFromSelectedMsgs m.sender m.sequence pr.1 pr.2) pr)).2 a k = none := by
  induction msgs with
  | nil =>
    rintro pr a k (⟨m, hm, _⟩ | h)
    · simp at hm
    · exact h
  | cons m rest ih =>
    rintro pr a k (⟨m2, hm2, he⟩ | h)
    · rw [List.foldl_cons]
      rcases List.mem_cons.mp hm2 with h2 | h2
      · refine ih _ a k (Or.inr ?_)
        subst h2
        rw [← he.1, ← he.2]
        exact bothNone_self pr m2.sender m2.sequence
      · exact ih _ a k (Or.inl ⟨m2, h2, he⟩)
    · rw [List.foldl_cons]
      exact ih _ a k (Or.inr (bothNone_step pr _ _ a k h))

theorem blsRemove_none (keys : List (Addr × Nat)) : ∀ (pr : PendingMap × PendingMap)
    (a : Addr) (k : Nat),
    ((a, k) ∈ keys ∨ (pendingGet pr.1 a k = none ∧ pendingGet pr.2 a k = none)) →
    pendingGet ((keys.foldl (fun pr q => removeFromSelectedMsgs q.1 q.2 pr.1 pr.2) pr)).1 a k
      = none ∧
    pendingGet ((keys.foldl (fun pr q => removeFromSelectedMsgs q.1 q.2 pr.1 pr.2) pr)).2 a k
      = none := by
  induction keys with
  | nil =>
    rintro pr a k (hm | h)
    · simp at hm
    · exact h
  | cons q rest ih =>
    rintro pr a k (hm | h)
    · rw [List.foldl_cons]
      rcases List.mem_cons.mp hm with h2 | h2
      · refine ih _ a k (Or.inr ?_)
        have ha : q.1 = a := by rw [← h2]
        have hk : q.2 = k := by rw [← h2]
        rw [← ha, ← hk]
        exact bothNone_self pr q.1 q.2
      · exact ih _ a k (Or.inl h2)
    · rw [List.foldl_cons]
      exact ih _ a k (Or.inr (bothNone_step pr _ _ a k h))

theorem blockRemove_none (api : Provider) (b : Block) (pr : PendingMap × PendingMap)
    (a : Addr) (k : Nat)
    (h : ((a, k) ∈ (api.messagesForBlock b).1 ∨
          (∃ m ∈ (api.messagesForBlock b).2, m.sender = a ∧ m.sequence = k)) ∨
         (pendingGet pr.1 a k = none ∧ pendingGet pr.2 a k = none)) :
    pendingGet (removeMsgsBls api b (removeMsgsSecp api b pr)).1 a k = none ∧
    pendingGet (removeMsgsBls api b (removeMsgsSecp api b pr)).2 a k = none := by
  unfold removeMsgsBls removeMsgsSecp
  rcases h with (hbls | hsecp) | hnone
  · exact blsRemove_none _ _ a k (Or.inl hbls)
  · exact blsRemove_none _ _ a k (Or.inr (secpRemove_none _ pr a k (Or.inl hsecp)))
  · exact blsRemove_none _ _ a k (Or.inr (secpRemove_none _ pr a k (Or.inr hnone)))

theorem blocksRemove_none (api : Provider) (bs : List Block) :
    ∀ (pr : PendingMap × PendingMap) (a : Addr) (k : Nat),
    ((∃ b ∈ bs, (a, k) ∈ (api.messagesForBlock b).1 ∨
        (∃ m ∈ (api.messagesForBlock b).2, m.sender = a ∧ m.sequence = k)) ∨
      (pendingGet pr.1 a k = none ∧ pendingGet pr.2 a k = none)) →
    pendingGet ((bs.foldl (fun pr b => removeMsgsBls api b (removeMsgsSecp api b pr)) pr)).1 a k
      = none ∧
    pendingGet ((bs.foldl (fun pr b => removeMsgsBls api b (removeMsgsSecp api b pr)) pr)).2 a k
      = none := by
  induction bs with
  | nil =>
    rintro pr a k (⟨b, hb, _⟩ | h)
    · simp at hb
    · exact h
  | cons b rest ih =>
    rintro pr a k (⟨b2, hb2, hm⟩ | h)
    · rw [List.foldl_cons]
      rcases List.mem_cons.mp hb2 with h2 | h2
      · refine ih _ a k (Or.inr ?_)
        subst h2
        exact blockRemove_none api b2 pr a k (Or.inl hm)
      · exact ih _ a k (Or.inl ⟨b2, h2, hm⟩)
    · rw [List.foldl_cons]
      exact ih _ a k (Or.inr (blockRemove_none api b pr a k (Or.inr h)))

theorem applyRightChain_none (api : Provider) (rc : List Tipset) :
    ∀ (live rmsgs : PendingMap) (a : Addr) (k : Nat),
    (keyOnChain api rc a k ∨
      (pendingGet live a k = none ∧ pendingGet rmsgs a k = none)) →
    pendingGet (applyRightChain api rc live rmsgs).1 a k = none ∧
    pendingGet (applyRightChain api rc live rmsgs).2 a k = none := by
  induction rc with
  | nil =>
    rintro live rmsgs a k (⟨ts, hts, _⟩ | h)
    · simp at hts
    · exact h
  | cons ts rest ih =>
    rintro live rmsgs a k (⟨ts2, hts2, hb⟩ | h)
    · unfold applyRightChain
      rw [List.foldl_cons]
      rcases List.mem_cons.mp hts2 with h2 | h2
      · have hstep := blocksRemove_none api ts.blocks (live, rmsgs) a k
          (Or.inl (by rw [h2] at hb; exact hb))
        have := ih _ _ a k (Or.inr hstep)
        exact this
      · have := ih ((ts.blocks.foldl
            (fun pr b => removeMsgsBls api b (removeMsgsSecp api b pr)) (live, rmsgs))).1
          ((ts.blocks.foldl
            (fun pr b => removeMsgsBls api b (removeMsgsSecp api b pr)) (live, rmsgs))).2
          a k (Or.inl ⟨ts2, h2, hb⟩)
        simpa using this
    · unfold applyRightChain
      rw [List.foldl_cons]
      have hstep := blocksRemove_none api ts.blocks (live, rmsgs) a k (Or.inr h)
      have := ih _ _ a k (Or.inr hstep)
      exact this

theorem secpRemove_preserve (msgs : List SMsg) : ∀ (pr : PendingMap × PendingMap)
    (a : Addr) (k : Nat),
    (∀ m ∈ msgs, ¬(m.sender = a ∧ m.sequence = k)) →
    pendingGet ((msgs.foldl
      (fun pr m => removeFromSelectedMsgs m.sender m.sequence pr.1 pr.2) pr)).2 a k =
      pendingGet pr.2 a k := by
  induction msgs with
  | nil => intro pr a k _; rfl
  | cons m rest ih =>
    intro pr a k h
    rw [List.foldl_cons]
    rw [ih _ a k (fun x hx => h x (by simp [hx]))]
    unfold removeFromSelectedMsgs
    dsimp only
    rw [pendingGet_removeKey]
    rw [if_neg]
    intro hc
    exact h m (by simp) ⟨hc.1.symm, hc.2.symm⟩

theorem blsRemove_preserve (keys : List (Addr × Nat)) : ∀ (pr : PendingMap × PendingMap)
    (a : Addr) (k : Nat),
    (∀ q ∈ keys, ¬(q.1 = a ∧ q.2 = k)) →
    pendingGet ((keys.foldl (fun pr q => removeFromSelectedMsgs q.1 q.2 pr.1 pr.2) pr)).2 a k =
      pendingGet pr.2 a k := by
  induction keys with
  | nil => intro pr a k _; rfl
  | cons q rest ih =>
    intro pr a k h
    rw [List.foldl_cons]
    rw [ih _ a k (fun x hx => h x (by simp [hx]))]
    unfold removeFromSelectedMsgs
    dsimp only
    rw [pendingGet_removeKey]
    rw [if_neg]
    intro hc
    exact h q (by simp) ⟨hc.1.symm, hc.2.symm⟩

theorem blocksRemove_preserve (api : Provider) (bs : List Block) :
    ∀ (pr : PendingMap × PendingMap) (a : Addr) (k : Nat),
    (∀ b ∈ bs, ¬((a, k) ∈ (api.messagesForBlock b).1 ∨
        ∃ m ∈ (api.messagesForBlock b).2, m.sender = a ∧ m.sequence = k)) →
    pendingGet ((bs.foldl (fun pr b => removeMsgsBls api b (removeMsgsSecp api b pr)) pr)).2 a k
      = pendingGet pr.2 a k := by
  induction bs with
  | nil => intro pr a k _; rfl
  | cons b rest ih =>
    intro pr a k h
    rw [List.foldl_cons]
    rw [ih _ a k (fun x hx => h x (by simp [hx]))]
    have hb := h b (by simp)
    unfold removeMsgsBls removeMsgsSecp
    rw [blsRemove_preserve _ _ a k]
    · rw [secpRemove_preserve _ _ a k]
      intro m hm hc
      exact hb (Or.inr ⟨m, hm, hc⟩)
    · intro q hq hc
      have he : q = (a, k) := by
        cases q
        simp only at hc
        rw [hc.1, hc.2]
      rw [he] at hq
      exact hb (Or.inl hq)

theorem applyRightChain_preserve (api : Provider) (rc : List Tipset) :
    ∀ (live rmsgs : PendingMap) (a : Addr) (k : Nat),
    ¬ keyOnChain api rc a k →
    pendingGet (applyRightChain api rc live rmsgs).2 a k = pendingGet rmsgs a k := by
  induction rc with
  | nil => intro live rmsgs a k _; rfl
  | cons ts rest ih =>
    intro live rmsgs a k h
    unfold applyRightChain
    rw [List.foldl_cons]
    have hrest : ¬ keyOnChain api rest a k := by
      intro ⟨ts2, hts2, hb⟩
      exact h ⟨ts2, by simp [hts2], hb⟩
    have hts : ∀ b ∈ ts.blocks, ¬((a, k) ∈ (api.messagesForBlock b).1 ∨
        ∃ m ∈ (api.messagesForBlock b).2, m.sender = a ∧ m.sequence = k) := by
      intro b hbmem hc
      exact h ⟨ts, by simp, ⟨b, hbmem, hc⟩⟩
    have hstep := blocksRemove_preserve api ts.blocks (live, rmsgs) a k hts
    have hrec := ih (ts.blocks.foldl
        (fun pr b => removeMsgsBls api b (removeMsgsSecp api b pr)) (live, rmsgs)).1
      (ts.blocks.foldl
        (fun pr b => removeMsgsBls api b (removeMsgsSecp api b pr)) (live, rmsgs)).2
      a k hrest
    have hsplit : applyRightChain api rest
        (ts.blocks.foldl
          (fun pr b => removeMsgsBls api b (removeMsgsSecp api b pr)) (live, rmsgs)).1
        (ts.blocks.foldl
          (fun pr b => removeMsgsBls api b (removeMsgsSecp api b pr)) (live, rmsgs)).2 =
      List.foldl
        (fun pr ts => ts.blocks.foldl (fun pr b => removeMsgsBls api b (removeMsgsSecp api b pr)) pr)
        (ts.blocks.foldl (fun pr b => removeMsgsBls api b (removeMsgsSecp api b pr)) (live, rmsgs))
        rest := by
      unfold applyRightChain
      rfl
    rw [← hsplit, hrec, hstep]

/-- C8 (amended): when the reorg walk back to the common ancestor yields the
left (current-branch) and right (target-branch) chains, the snapshot built
by `run_head_change` contains, keyed by `(sender, sequence)`, every signed
message of every left-chain tipset whose key does not occur among the
target branch's messages, and contains no key that occurs on the target
branch; such keys are removed from the live pending map as well. -/
theorem runHeadChange_snapshot_spec (api : Provider) (fuel : Nat)
    (live : PendingMap) (src dst : Tipset) (rmsgs : PendingMap)
    (lc rc : List Tipset) (out : PendingMap × PendingMap)
    (hw : walkChains api fuel src dst = some (lc, rc))
    (hr : runHeadChange api fuel live src dst rmsgs = some out) :
    (∀ ts ∈ lc, ∀ b ∈ ts.blocks, ∀ m ∈ (api.messagesForBlock b).2,
        ¬ keyOnChain api rc m.sender m.sequence →
        (pendingGet out.2 m.sender m.sequence).isSome) ∧
    (∀ a k, keyOnChain api rc a k →
        pendingGet out.2 a k = none ∧ pendingGet out.1 a k = none) := by
  unfold runHeadChange at hr
  rw [hw] at hr
  have hr2 : some (applyRightChain api rc live (applyLeftChain api lc rmsgs)) = some out := hr
  rw [Option.some_inj] at hr2
  constructor
  · intro ts hts b hb m hm hnot
    rw [← hr2]
    rw [applyRightChain_preserve api rc _ _ _ _ hnot]
    exact applyLeftChain_isSome api lc rmsgs _ _
      (Or.inl ⟨ts, hts, b, hb, m, hm, rfl, rfl⟩)
  · intro a k hkey
    rw [← hr2]
    have h2 := applyRightChain_none api rc live (applyLeftChain api lc rmsgs) a k
      (Or.inl hkey)
    exact ⟨h2.2, h2.1⟩

/-- C8 (counterexample): when the same signed message `mShared` sits in both
sibling branches, the claim's first conjunct fails — `tsL` is on the
current branch and carries `mShared`, yet the snapshot produced by
`run_head_change` does not contain its `(sender, sequence)` key, because the
right-chain pass removes it after the left-chain pass added it. -/
theorem runHeadChange_overlap_cex :
    walkChains apiReorg 5 tsL tsR = some ([tsL], [tsR]) ∧
    tsL.blocks = [blk1] ∧
    (apiReorg.messagesForBlock blk1).2 = [mShared] ∧
    runHeadChange apiReorg 5 [] tsL tsR [] = some ([], [(3, [])]) ∧
    pendingGet [(3, [])] mShared.sender mShared.sequence = none :=
  ⟨rfl, rfl, rfl, rfl, rfl⟩

/-- Witness for C8 (amended): the characterization applied to the concrete
two-branch reorg. -/
theorem runHeadChange_snapshot_spec_witness :
    (∀ ts ∈ [tsL], ∀ b ∈ ts.blocks, ∀ m ∈ (apiReorg.messagesForBlock b).2,
        ¬ keyOnChain apiReorg [tsR] m.sender m.sequence →
        (pendingGet (([], [(3, [])]) : PendingMap × PendingMap).2
          m.sender m.sequence).isSome) ∧
    (∀ a k, keyOnChain apiReorg [tsR] a k →
        pendingGet (([], [(3, [])]) : PendingMap × PendingMap).2 a k = none ∧
        pendingGet (([], [(3, [])]) : PendingMap × PendingMap).1 a k = none) :=
  runHeadChange_snapshot_spec apiReorg 5 [] tsL tsR [] [tsL] [tsR]
    (([], [(3, [])]) : PendingMap × PendingMap) rfl rfl

end Forest
